import Mathlib

/-!
Verification development for the SEM Workflow Manager discovery and
registration core.  The definitions below are shallow embeddings of the
Python source: numeric fields become rationals, fallible operations
return Option, and image-level operations (file loading, correlation
search) are abstracted by explicitly passed oracles.  Each definition
cites the source file and lines it embeds.
-/

/-! ## String primitives

Python string operations used by the source (substring test, replace,
lower-casing) are modelled on character lists so that they compute by
kernel reduction.
-/

/-- Test whether the second character list is an initial segment of the first. -/
def listStartsWith : List Char → List Char → Bool
  | _, [] => true
  | [], _ :: _ => false
  | c :: cs, p :: ps => c == p && listStartsWith cs ps

/-- Replace every non-overlapping occurrence of the pattern, scanning left to
right, as Python str.replace does.  The fuel argument is a structural-recursion
bound; it is always instantiated with the length of the scanned list, which
suffices because every step consumes at least one character. -/
def replaceAllF : ℕ → List Char → List Char → List Char → List Char
  | 0, _, _, s => s
  | _ + 1, _, _, [] => []
  | fuel + 1, pat, rep, c :: rest =>
    if listStartsWith (c :: rest) pat ∧ pat ≠ [] then
      rep ++ replaceAllF fuel pat rep (rest.drop (pat.length - 1))
    else
      c :: replaceAllF fuel pat rep rest

/-- Python s.replace(pat, rep). -/
def strReplace (s pat rep : String) : String :=
  String.mk (replaceAllF s.toList.length pat.toList rep.toList s.toList)

/-- Helper for the substring test: does the pattern occur in the list? -/
def strContainsAux (pat : List Char) : List Char → Bool
  | [] => decide (pat = [])
  | c :: rest => listStartsWith (c :: rest) pat || strContainsAux pat rest

/-- Python "pat in s" substring test. -/
def strContains (s pat : String) : Bool := strContainsAux pat.toList s.toList

/-- ASCII lower-casing of one character, as Python str.lower acts on the
detector names appearing in the metadata (pure ASCII). -/
def charLower (c : Char) : Char :=
  if 'A' ≤ c ∧ c ≤ 'Z' then Char.ofNat (c.toNat + 32) else c

/-- Python s.lower() for the ASCII strings stored in the detector field. -/
def strLower (s : String) : String := String.mk (s.toList.map charLower)

/-! ## Sorting by a rational key

pandas sort_values is modelled by an insertion sort on a rational key.
pandas' default quicksort is unstable, so the order among equal keys is
unspecified there; this model fixes one stable order, and every theorem
about a selected element only uses properties that hold for any order
consistent with the key. -/

/-- Insert x behind every element whose key is at most the key of x. -/
def insertSorted {α : Type} (key : α → ℚ) (x : α) : List α → List α
  | [] => [x]
  | y :: ys => if key y ≤ key x then y :: insertSorted key x ys else x :: y :: ys

/-- Sort a list by ascending rational key. -/
def sortByKey {α : Type} (key : α → ℚ) (l : List α) : List α :=
  l.foldl (fun acc x => insertSorted key x acc) []

namespace AnnotateOverview

/-- Pixel offset of a session image location relative to the overview centre,
embedded from annotate_overview.py, _mark_session_image_locations lines
877-892: dx_um = img_x - overview_stage_x, dy_um = img_y - overview_stage_y,
dx_pixels = -dx_um / um_per_pixel_x (0 when the pixel size is 0), and likewise
for y.  No rotation is applied in this code path. -/
def mark_session_offset_px (overview_stage_x overview_stage_y img_x img_y
    um_per_pixel_x um_per_pixel_y : ℚ) : ℚ × ℚ :=
  let dx_um := img_x - overview_stage_x
  let dy_um := img_y - overview_stage_y
  (if um_per_pixel_x ≠ 0 then -dx_um / um_per_pixel_x else 0,
   if um_per_pixel_y ≠ 0 then -dy_um / um_per_pixel_y else 0)

end AnnotateOverview

namespace MagGrid

/-- Metadata fields used by the MagGrid workflow (models/metadata_extractor.py).
The workflow only processes records that passed is_valid(), so every required
field is present; a Python-falsy field-of-view (None or 0.0) is modelled by the
value 0. -/
structure Metadata where
  mode : String
  high_voltage_kV : ℚ
  magnification : ℚ
  sample_position_x : ℚ
  sample_position_y : ℚ
  field_of_view_width : ℚ
  field_of_view_height : ℚ
deriving DecidableEq

/-- Axis-aligned rectangle containment test of mag_grid.py lines 164-178:
the boundaries of both fields of view are computed from centre and size and
the inner (high magnification) box must lie inside the outer (low
magnification) box. -/
def contains (low_x low_y low_width low_height high_x high_y high_width high_height : ℚ) : Bool :=
  let low_left := low_x - low_width / 2
  let low_right := low_x + low_width / 2
  let low_top := low_y - low_height / 2
  let low_bottom := low_y + low_height / 2
  let high_left := high_x - high_width / 2
  let high_right := high_x + high_width / 2
  let high_top := high_y - high_height / 2
  let high_bottom := high_y + high_height / 2
  decide (high_left ≥ low_left ∧ high_right ≤ low_right ∧
          high_top ≥ low_top ∧ high_bottom ≤ low_bottom)

/-- mag_grid.py _check_containment lines 133-178: same mode and voltage,
magnification at least 1.5 times higher, and the field-of-view rectangle of
the high magnification image contained in that of the low one. -/
def check_containment (low high : Metadata) : Bool :=
  if low.mode ≠ high.mode ∨ low.high_voltage_kV ≠ high.high_voltage_kV then false
  else if high.magnification < low.magnification * (3 / 2) then false
  else contains low.sample_position_x low.sample_position_y
        low.field_of_view_width low.field_of_view_height
        high.sample_position_x high.sample_position_y
        high.field_of_view_width high.field_of_view_height

/-- mag_grid.py _template_match lines 209-215: the probe scale factor is the
field-of-view ratio when both field-of-view widths are truthy (present and
non-zero), else the magnification ratio. -/
def computed_scale (low high : Metadata) : ℚ :=
  if low.field_of_view_width ≠ 0 ∧ high.field_of_view_width ≠ 0 then
    high.field_of_view_width / low.field_of_view_width
  else
    low.magnification / high.magnification

/-- mag_grid.py _template_match lines 219-222: a scale factor outside
[0.01, 0.9] is replaced by the default 0.5; otherwise it is kept. -/
def effective_scale (low high : Metadata) : ℚ :=
  let scale_factor := computed_scale low high
  if scale_factor < 1 / 100 ∨ scale_factor > 9 / 10 then 1 / 2 else scale_factor

/-- The (x, y, w, h) rectangle returned by a successful template match. -/
structure MatchRect where
  x : ℤ
  y : ℤ
  w : ℕ
  h : ℕ
deriving DecidableEq

/-- mag_grid.py _template_match lines 192-246.  The corr oracle abstracts the
image-level part (lines 201-207 and 225-232): given the scale factor used to
resize the probe, it returns none when an image fails to load, otherwise the
best correlation score together with the match location and the resized
template dimensions.  The function fails (returns none) exactly on load
failure or a score below the 0.5 threshold (self.template_match_threshold). -/
def template_match (low high : Metadata)
    (corr : ℚ → Option (ℚ × ℤ × ℤ × ℕ × ℕ)) : Option MatchRect :=
  match corr (effective_scale low high) with
  | none => none
  | some (max_val, x, y, w, h) => if max_val < 1 / 2 then none else some ⟨x, y, w, h⟩

/-- An image path together with its validated metadata. -/
abbrev Item := String × Metadata

/-- One pyramid member as stored in a MagGrid collection: the path, the
metadata dictionary, and the match rectangle (absent for the head). -/
structure PyramidEntry where
  path : String
  metadata : Metadata
  match_rect : Option MatchRect
deriving DecidableEq

/-- The body of the inner loop of mag_grid.py _build_mag_pyramids lines
99-115: a candidate is appended, and becomes the new tail, exactly when the
containment check passes and the template match succeeds; otherwise the state
is unchanged.  The corr oracle is indexed by the two image paths. -/
def pyramid_step (corr : String → String → ℚ → Option (ℚ × ℤ × ℤ × ℕ × ℕ))
    (st : Item × List PyramidEntry) (cand : Item) : Item × List PyramidEntry :=
  if check_containment st.1.2 cand.2 then
    match template_match st.1.2 cand.2 (corr st.1.1 cand.1) with
    | some rect => (cand, st.2 ++ [⟨cand.1, cand.2, some rect⟩])
    | none => st
  else st

/-- The chain grown from one head over the remaining sorted records. -/
def build_pyramid (corr : String → String → ℚ → Option (ℚ × ℤ × ℤ × ℕ × ℕ))
    (head : Item) (rest : List Item) : List PyramidEntry :=
  (rest.foldl (pyramid_step corr) (head, [⟨head.1, head.2, none⟩])).2

/-- A MagGrid collection (mag_grid.py lines 120-126). -/
structure Collection where
  images : List PyramidEntry
  mode : String
  high_voltage : ℚ
  magnifications : List ℚ
deriving DecidableEq

/-- Package a pyramid as a collection, as mag_grid.py lines 120-126 does
from the first member's metadata. -/
def mk_collection (p : List PyramidEntry) : Collection :=
  { images := p
    mode := (p.map (fun e => e.metadata.mode)).headD ""
    high_voltage := (p.map (fun e => e.metadata.high_voltage_kV)).headD 0
    magnifications := p.map (fun e => e.metadata.magnification) }

/-- The outer loop of _build_mag_pyramids lines 93-128: each record in turn
is tried as the head of a chain, and a chain is emitted as a collection only
when it has at least 2 members.  (The Python loop stops before the last
record; trying the last record as a head would produce a 1-member chain that
the length guard discards, so the output is the same.) -/
def build_aux (corr : String → String → ℚ → Option (ℚ × ℤ × ℤ × ℕ × ℕ)) :
    List Item → List Collection
  | [] => []
  | x :: xs =>
    (if 2 ≤ (build_pyramid corr x xs).length
     then [mk_collection (build_pyramid corr x xs)] else [])
      ++ build_aux corr xs

/-- mag_grid.py _build_mag_pyramids lines 82-128, over records sorted by
ascending magnification. -/
def build_mag_pyramids (corr : String → String → ℚ → Option (ℚ × ℤ × ℤ × ℕ × ℕ))
    (sorted_images : List Item) : List Collection :=
  if sorted_images.length < 2 then [] else build_aux corr sorted_images

/-- The three conditions under which the pyramid builder appends a candidate
to the chain whose tail is low (within one mode/voltage group): magnification
at least 1.5 times the tail's, field of view contained in the tail's, and a
correlation outcome at or above the 0.5 threshold. -/
def append_conditions (corr : String → String → ℚ → Option (ℚ × ℤ × ℤ × ℕ × ℕ))
    (low cand : Item) : Prop :=
  low.2.magnification * (3 / 2) ≤ cand.2.magnification ∧
  contains low.2.sample_position_x low.2.sample_position_y
    low.2.field_of_view_width low.2.field_of_view_height
    cand.2.sample_position_x cand.2.sample_position_y
    cand.2.field_of_view_width cand.2.field_of_view_height = true ∧
  ∃ v x y w h,
    corr low.1 cand.1 (effective_scale low.2 cand.2) = some (v, x, y, w, h) ∧ 1 / 2 ≤ v

end MagGrid

namespace CompareGrid

/-- One row of the consolidated cross-session metadata frame
(compare_grid.py _consolidate_metadata): the fields used by
discover_collections.  A missing (NaN) magnification or image path is none. -/
structure Row where
  session_id : String
  image_path : Option String
  mode : String
  high_voltage_kV : ℚ
  magnification : Option ℚ
deriving DecidableEq

/-- compare_grid.py line 368: a magnification fits an existing band when it
is within 12 percent of the band's first member. -/
def fits_band (g : List ℚ) (m : ℚ) : Prop :=
  |m - g.headD 0| / g.headD 0 ≤ 12 / 100

instance (g : List ℚ) (m : ℚ) : Decidable (fits_band g m) := by
  unfold fits_band; infer_instance

/-- compare_grid.py lines 362-375: try each existing band in order and append
to the first whose base magnification is within tolerance; otherwise start a
new band at the end. -/
def place (gs : List (List ℚ)) (m : ℚ) : List (List ℚ) :=
  match gs with
  | [] => [[m]]
  | g :: rest => if fits_band g m then (g ++ [m]) :: rest else g :: place rest m

/-- compare_grid.py lines 360-375: the banding sweep over magnifications in
ascending order. -/
def mag_bands (mags : List ℚ) : List (List ℚ) := mags.foldl place []

/-- compare_grid.py lines 379-383: the representative magnification of a
band — the middle value, or the mean of the two central values for an
even-sized band. -/
def representative_mag (g : List ℚ) : ℚ :=
  if g.length % 2 = 0 then
    (g.getD (g.length / 2 - 1) 0 + g.getD (g.length / 2) 0) / 2
  else g.getD (g.length / 2) 0

/-- Follows the spec's words (section 4.7 step 3), for comparison with the
code's representative_mag: the median of a sorted list, written uniformly as
the mean of the values at positions (n-1)/2 and n/2 — the middle value for
odd n, the mean of the two central values for even n. -/
def median_from_spec (g : List ℚ) : ℚ :=
  (g.getD ((g.length - 1) / 2) 0 + g.getD (g.length / 2) 0) / 2

/-- Rows of one exact (mode, voltage) group, compare_grid.py line 339. -/
def pair_rows (rows : List Row) (mode : String) (voltage : ℚ) : List Row :=
  rows.filter (fun r => decide (r.mode = mode ∧ r.high_voltage_kV = voltage))

/-- The distinct (mode, voltage) pairs of the frame, compare_grid.py line 331.
pandas sorts the group keys; that only affects the order in which collections
are emitted, so first-occurrence order is used here. -/
def unique_pairs (rows : List Row) : List (String × ℚ) :=
  (rows.map (fun r => (r.mode, r.high_voltage_kV))).dedup

/-- The distinct session ids of a row set, in first-occurrence order
(pandas nunique / groupby on session_id; the sorted key order of pandas only
affects the order of images inside a collection). -/
def sessions_of (rows : List Row) : List String :=
  (rows.map (fun r => r.session_id)).dedup

/-- compare_grid.py lines 357-358: the distinct magnifications present,
NaN dropped, sorted ascending. -/
def mags_of (rows : List Row) : List ℚ :=
  sortByKey id ((rows.filterMap (fun r => r.magnification)).dedup)

/-- compare_grid.py lines 386-390: a row is within a band's selection window
when its magnification lies between 0.88 and 1.12 times the representative
magnification (rows with no magnification never pass). -/
def in_window (rep : ℚ) (r : Row) : Bool :=
  match r.magnification with
  | none => false
  | some q => decide (88 / 100 * rep ≤ q ∧ q ≤ 112 / 100 * rep)

/-- The rows selected by the band window, compare_grid.py lines 389-390. -/
def window_rows (rows : List Row) (rep : ℚ) : List Row := rows.filter (in_window rep)

/-- compare_grid.py line 411: distance of a row's magnification from the
representative. -/
def mag_diff (rep : ℚ) (r : Row) : ℚ := |r.magnification.getD 0 - rep|

/-- One image entry of a CompareGrid collection (compare_grid.py lines
427-434), restricted to the fields the claims are about. -/
structure Entry where
  path : Option String
  session_id : String
  magnification : ℚ
  alternatives : List String
deriving DecidableEq

/-- compare_grid.py lines 402-434 for one session pool: sort the pool rows by
distance to the representative, select the first, and keep as alternatives
the image paths of the next at most four rows (rows 1 to 4 of the sorted
order, those with a present image path). -/
def mk_entry (pool : List Row) (rep : ℚ) (s : String) : Entry :=
  let sorted_pool := sortByKey (mag_diff rep) pool
  let best := sorted_pool.headD ⟨"", none, "", 0, none⟩
  { path := best.image_path
    session_id := s
    magnification := best.magnification.getD 0
    alternatives := ((sorted_pool.drop 1).take 4).filterMap (fun r => r.image_path) }

/-- A CompareGrid collection (compare_grid.py lines 437-445), restricted to
the fields the claims are about. -/
structure Collection where
  mode : String
  high_voltage : ℚ
  representative : ℚ
  images : List Entry
deriving DecidableEq

/-- compare_grid.py discover_collections lines 327-453: keep the (mode,
voltage) pairs present in at least two sessions; band the magnifications of
each such pair; for each band select, per session with rows in the band's
window, the row closest to the representative magnification; and emit a
collection only when at least two sessions contribute. -/
def discover_collections (rows : List Row) : List Collection :=
  (unique_pairs rows).flatMap (fun mv =>
    let fdf := pair_rows rows mv.1 mv.2
    if 2 ≤ (sessions_of fdf).length then
      (mag_bands (mags_of fdf)).filterMap (fun band =>
        let rep := representative_mag band
        let mag_df := window_rows fdf rep
        let sess := sessions_of mag_df
        if sess.length < 2 then none
        else some
          { mode := mv.1
            high_voltage := mv.2
            representative := rep
            images := sess.map (fun s =>
              mk_entry (mag_df.filter (fun r => decide (r.session_id = s))) rep s) })
    else [])

/-- Concrete cross-session pool: session A holds six images of one
magnification band, session B holds one; used to exhibit the cap of four on
the alternates list. -/
def c5_rows : List Row :=
  [⟨"A", some "a1", "m", 15, some 100⟩,
   ⟨"A", some "a2", "m", 15, some 102⟩,
   ⟨"A", some "a3", "m", 15, some 105⟩,
   ⟨"A", some "a4", "m", 15, some 107⟩,
   ⟨"A", some "a5", "m", 15, some 108⟩,
   ⟨"A", some "a6", "m", 15, some 110⟩,
   ⟨"B", some "b1", "m", 15, some 109⟩]

/-- The collection the code discovers on c5_rows: session A's entry keeps
only four alternates, dropping the same-band image a1. -/
def c5_expected : Collection :=
  ⟨"m", 15, 107,
    [⟨some "a4", "A", 107, ["a5", "a3", "a6", "a2"]⟩,
     ⟨some "b1", "B", 109, []⟩]⟩

/-- Concrete cross-session pool: the band [100, 112] is populated only by
session A, while session B's single image at 113 falls in a band of its
own — yet inside the selection window of the first band's representative. -/
def c6_rows : List Row :=
  [⟨"A", some "x1", "m", 15, some 100⟩,
   ⟨"A", some "x2", "m", 15, some 112⟩,
   ⟨"B", some "y1", "m", 15, some 113⟩]

/-- The collection the code emits on c6_rows for the band [100, 112]: its
second image comes from session B although B has no image in that band. -/
def c6_band1_col : Collection :=
  ⟨"m", 15, 106,
    [⟨some "x1", "A", 100, ["x2"]⟩,
     ⟨some "y1", "B", 113, []⟩]⟩

/-- The collection the code emits on c6_rows for the band [113]. -/
def c6_band2_col : Collection :=
  ⟨"m", 15, 113,
    [⟨some "x2", "A", 112, ["x1"]⟩,
     ⟨some "y1", "B", 113, []⟩]⟩

/-- Minimal two-session pool used to instantiate the discovery theorems. -/
def cw_rows : List Row :=
  [⟨"A", some "pa", "m", 15, some 100⟩,
   ⟨"B", some "pb", "m", 15, some 100⟩]

/-- The single collection discovered on cw_rows. -/
def cw_col : Collection :=
  ⟨"m", 15, 100,
    [⟨some "pa", "A", 100, []⟩,
     ⟨some "pb", "B", 100, []⟩]⟩

/-- The session-A entry of cw_col. -/
def cw_entry : Entry := ⟨some "pa", "A", 100, []⟩

/-- One image entry of a serialized CompareGrid collection as handled by
switch_image_alternative; the metadata dictionary is opaque to the switch
operation, so its type is a parameter. -/
structure CGImage (μ : Type) where
  path : String
  metadata_dict : μ
  alternatives : List String
deriving DecidableEq

/-- compare_grid.py switch_image_alternative lines 787-847.  The extract
oracle abstracts MetadataExtractor.extract_metadata composed with to_dict
(none on failure).  On any failed precondition — index out of range,
alternative path absent from the entry's alternatives, metadata extraction
failure — the images list is returned unchanged; otherwise the selected path
is appended to the alternatives, the chosen alternative removed from them
(Python list.remove drops the first occurrence), and the entry replaced. -/
def switch_image_alternative {μ : Type} (extract : String → Option μ)
    (images : List (CGImage μ)) (image_index : ℤ) (alternative_path : String) :
    List (CGImage μ) :=
  if image_index < 0 ∨ (images.length : ℤ) ≤ image_index then images
  else
    match images.get? image_index.toNat with
    | none => images
    | some current =>
      if alternative_path ∉ current.alternatives then images
      else
        match extract alternative_path with
        | none => images
        | some md =>
          images.set image_index.toNat
            { path := alternative_path
              metadata_dict := md
              alternatives := (current.alternatives ++ [current.path]).erase alternative_path }

end CompareGrid

namespace ModeGrid

/-- Metadata fields used by the ModeGrid mode classifier
(mode_grid.py _get_mode_from_metadata lines 337-410).  The mix-factor
coefficients default to 0 when absent, exactly as the code initialises
bsdA = bsdB = bsdC = bsdD = 0 before looking them up. -/
structure Metadata where
  filename : String
  mode : String
  bsdA : ℚ
  bsdB : ℚ
  bsdC : ℚ
  bsdD : ℚ
  high_voltage_kV : Option ℚ
deriving DecidableEq

/-- The voltage suffix appended to a mode label: Python int(abs(v)) truncates
the absolute voltage toward zero, which on a non-negative value is the floor. -/
def kv_suffix (v : ℚ) : String := toString (Int.toNat ⌊|v|⌋) ++ "kv"

/-- mode_grid.py _get_mode_from_metadata lines 337-410: ChemSEM images
(by filename) are labelled chemsem; otherwise the detector field gives sed or
bsd; a mix detector is classified by the four segment-weight coefficients
into topo-h, topo-v or generic topo; the voltage (truncated integer kV,
sign stripped) is appended whenever known. -/
def get_mode_from_metadata (m : Metadata) : String :=
  if strContains m.filename "ChemiSEM" then
    match m.high_voltage_kV with
    | some v => "chemsem_" ++ kv_suffix v
    | none => "chemsem"
  else
    let basic_mode := if m.mode = "" then "unknown" else strLower m.mode
    let detector_mode :=
      if strLower m.mode = "sed" then some "sed"
      else if strLower m.mode = "bsd" ∨ strLower m.mode = "bsd-all" then some "bsd"
      else none
    let detector_mode :=
      if strLower m.mode = "mix" then
        if |m.bsdB| > |m.bsdA| ∧ |m.bsdC| > |m.bsdD| then some "topo-h"
        else if |m.bsdA| > |m.bsdB| ∧ |m.bsdD| > |m.bsdC| then some "topo-v"
        else some "topo"
      else detector_mode
    match m.high_voltage_kV with
    | some v => detector_mode.getD basic_mode ++ "_" ++ kv_suffix v
    | none => detector_mode.getD basic_mode

/-- Metadata fields used by the ModeGrid position clusterer
(mode_grid.py _group_by_position lines 179-263).  The valid flag is
metadata.is_valid(). -/
structure PRecord where
  path : String
  filename : String
  sample_position_x : Option ℚ
  sample_position_y : Option ℚ
  field_of_view_width : Option ℚ
  field_of_view_height : Option ℚ
  valid : Bool
deriving DecidableEq

/-- mode_grid.py lines 194-199: the filter applied before grouping. -/
def record_usable (r : PRecord) : Bool :=
  r.valid && r.sample_position_x.isSome && r.sample_position_y.isSome
    && r.field_of_view_width.isSome && r.field_of_view_height.isSome

/-- The usable records of a pool, in pool order. -/
def valid_images (pool : List PRecord) : List PRecord := pool.filter record_usable

/-- mode_grid.py line 204: ChemSEM images are identified by filename. -/
def is_chemsem (r : PRecord) : Bool := strContains r.filename "ChemiSEM"

/-- mode_grid.py line 206: base name of a ChemSEM image. -/
def chem_base (r : PRecord) : String :=
  strReplace (strReplace (strReplace r.filename "_ChemiSEM" "") ".tiff" "") ".tif" ""

/-- mode_grid.py line 210: base name of a regular image. -/
def normal_base (r : PRecord) : String :=
  strReplace (strReplace r.filename ".tiff" "") ".tif" ""

/-- Python dict assignment d[k] = v: an existing key keeps its position and
gets the new value, a new key is appended. -/
def dict_insert {β : Type} (d : List (String × β)) (k : String) (v : β) :
    List (String × β) :=
  if d.any (fun p => p.1 == k) then
    d.map (fun p => if p.1 == k then (p.1, v) else p)
  else d ++ [(k, v)]

/-- Python dict lookup (first — unique — matching key). -/
def dict_find {β : Type} (d : List (String × β)) (k : String) : Option β :=
  (d.find? (fun p => p.1 == k)).map (fun p => p.2)

/-- mode_grid.py lines 203-211: the base-name dictionary of ChemSEM images. -/
def chemsem_images (pool : List PRecord) : List (String × String) :=
  (valid_images pool).foldl
    (fun d r => if is_chemsem r then dict_insert d (chem_base r) r.path else d) []

/-- mode_grid.py lines 203-211: the base-name dictionary of regular images. -/
def normal_images (pool : List PRecord) : List (String × String) :=
  (valid_images pool).foldl
    (fun d r => if is_chemsem r then d else dict_insert d (normal_base r) r.path) []

/-- mode_grid.py lines 217-221: pair each regular image with the ChemSEM
image of the same base name, when one exists, in dictionary order. -/
def chemsem_matches (pool : List PRecord) : List (String × String) :=
  (normal_images pool).filterMap
    (fun p => (dict_find (chemsem_images pool) p.1).map (fun ch => (p.2, ch)))

/-- mode_grid.py line 231: the exact-position key.  Python formats the two
floats into a string; distinct floats always format distinctly, so the pair
itself is an equivalent key. -/
def pos_key (r : PRecord) : ℚ × ℚ :=
  (r.sample_position_x.getD 0, r.sample_position_y.getD 0)

/-- Add a path to the group of its key (appending to an existing group in
place, or appending a new group), as the dict-of-lists loop of lines 230-234. -/
def group_insert (gs : List ((ℚ × ℚ) × List String)) (k : ℚ × ℚ) (p : String) :
    List ((ℚ × ℚ) × List String) :=
  match gs with
  | [] => [(k, [p])]
  | g :: rest => if g.1 = k then (g.1, g.2 ++ [p]) :: rest else g :: group_insert rest k p

/-- mode_grid.py lines 223-234: group the usable non-ChemSEM records by exact
position. -/
def exact_position_groups (pool : List PRecord) : List ((ℚ × ℚ) × List String) :=
  (valid_images pool).foldl
    (fun gs r => if is_chemsem r then gs else group_insert gs (pos_key r) r.path) []

/-- mode_grid.py lines 237-244: append a matched ChemSEM image to the first
group containing its regular image. -/
def attach_chem (gs : List ((ℚ × ℚ) × List String)) (m : String × String) :
    List ((ℚ × ℚ) × List String) :=
  match gs with
  | [] => []
  | g :: rest => if m.1 ∈ g.2 then (g.1, g.2 ++ [m.2]) :: rest else g :: attach_chem rest m

/-- mode_grid.py _group_by_position lines 179-263: the cluster memberships,
one path list per exact position, with matched ChemSEM images attached to
their regular image's group. -/
def group_by_position (pool : List PRecord) : List (List String) :=
  ((chemsem_matches pool).foldl attach_chem (exact_position_groups pool)).map
    (fun g => g.2)

/-- The cluster memberships compared as a set of sets of record identifiers,
as the claimed determinism property reads them. -/
def cluster_sets (pool : List PRecord) : Finset (Finset String) :=
  ((group_by_position pool).map List.toFinset).toFinset

/-- Canonical description of one exact-position group before ChemSEM
attachment: the paths of the usable non-ChemSEM records at that position, in
pool order. -/
def paths_at (pool : List PRecord) (k : ℚ × ℚ) : List String :=
  ((valid_images pool).filter
    (fun r => !is_chemsem r && decide (pos_key r = k))).map (fun r => r.path)

/-- Canonical description of the ChemSEM paths attached to the group at one
position: the matched ChemSEM images whose regular image sits in that group. -/
def chems_at (pool : List PRecord) (k : ℚ × ℚ) : List String :=
  ((chemsem_matches pool).filter
    (fun mch => decide (mch.1 ∈ paths_at pool k))).map (fun mch => mch.2)

/-- Concrete pool with two regular records sharing the base filename img1 at
different positions, plus one matching ChemSEM record; insertion order
decides which regular image the ChemSEM record is attached to. -/
def c9_pool1 : List PRecord :=
  [⟨"a/img1.tif", "img1.tif", some 1, some 1, some 1, some 1, true⟩,
   ⟨"b/img1.tif", "img1.tif", some 2, some 2, some 1, some 1, true⟩,
   ⟨"a/img1_ChemiSEM.tif", "img1_ChemiSEM.tif", some 1, some 1, some 1, some 1, true⟩]

/-- The same three records with the two regular ones swapped. -/
def c9_pool2 : List PRecord :=
  [⟨"b/img1.tif", "img1.tif", some 2, some 2, some 1, some 1, true⟩,
   ⟨"a/img1.tif", "img1.tif", some 1, some 1, some 1, some 1, true⟩,
   ⟨"a/img1_ChemiSEM.tif", "img1_ChemiSEM.tif", some 1, some 1, some 1, some 1, true⟩]

/-- Concrete pool with distinct base filenames, used to instantiate the
amended permutation-invariance theorem. -/
def c9_pool3 : List PRecord :=
  [⟨"a/img1.tif", "img1.tif", some 1, some 1, some 1, some 1, true⟩,
   ⟨"a/img2.tif", "img2.tif", some 2, some 2, some 1, some 1, true⟩,
   ⟨"a/img1_ChemiSEM.tif", "img1_ChemiSEM.tif", some 1, some 1, some 1, some 1, true⟩]

/-- A permutation of c9_pool3. -/
def c9_pool4 : List PRecord :=
  [⟨"a/img2.tif", "img2.tif", some 2, some 2, some 1, some 1, true⟩,
   ⟨"a/img1.tif", "img1.tif", some 1, some 1, some 1, some 1, true⟩,
   ⟨"a/img1_ChemiSEM.tif", "img1_ChemiSEM.tif", some 1, some 1, some 1, some 1, true⟩]

end ModeGrid

/-! ## Theorems -/

/-- C1 counterexample: with zero rotation, overview centre (0, 0) and
1 µm/pixel, a target 10 µm to the physical left of the centre (physical X
exceeding the centre's X by 10) is mapped to pixel offset dx_px = -10, not
+10 as the claim states. -/
theorem c1_counterexample :
    (AnnotateOverview.mark_session_offset_px 0 0 10 0 1 1).1 = -10 ∧
    (AnnotateOverview.mark_session_offset_px 0 0 10 0 1 1).1 ≠ 10 := by
  constructor <;> norm_num [AnnotateOverview.mark_session_offset_px]

/-- C1 amended: for every record with zero stage rotation and positive
µm/pixel, a target 10 µm to the physical left of the centre (physical X
exceeding the centre's X by 10 µm) maps to pixel offset dx_px = -10 at
1 µm/pixel (pixel X decreases, physical X increasing opposite to pixel X),
and a target 10 µm above the centre (physical Y exceeding the centre's Y)
maps to a decrease in pixel Y. -/
theorem c1_sign_convention (cx cy upy : ℚ) (h : 0 < upy) :
    (AnnotateOverview.mark_session_offset_px cx cy (cx + 10) cy 1 upy).1 = -10 ∧
    (AnnotateOverview.mark_session_offset_px cx cy cx (cy + 10) 1 upy).2 < 0 := by
  have h0 : upy ≠ 0 := ne_of_gt h
  constructor
  · simp only [AnnotateOverview.mark_session_offset_px]
    norm_num
  · simp only [AnnotateOverview.mark_session_offset_px, if_pos h0]
    have hy : cy + 10 - cy = 10 := by ring
    simp only [h0, if_true, hy]
    exact div_neg_of_neg_of_pos (by norm_num) h

/-- C1 witness: the amended sign convention evaluated at centre (0, 0) with
1 µm/pixel in both axes. -/
theorem c1_sign_convention_witness :
    (AnnotateOverview.mark_session_offset_px 0 0 (0 + 10) 0 1 1).1 = -10 ∧
    (AnnotateOverview.mark_session_offset_px 0 0 0 (0 + 10) 1 1).2 < 0 :=
  c1_sign_convention 0 0 1 (by norm_num)

/-- C8: containment is reflexive — the axis-aligned bounding-box test applied
with identical outer and inner centre and field of view returns true. -/
theorem c8_containment_reflexive (cx cy fw fh : ℚ) :
    MagGrid.contains cx cy fw fh cx cy fw fh = true := by
  simp [MagGrid.contains]

/-- C2 counterexample: metadata whose field-of-view ratio gives scale factor
2 — outside [0.01, 0.9] — does not make the template-matching call fail;
with a correlation outcome of score 0.9 the call still returns a match
rectangle instead of a typed no-result. -/
theorem c2_counterexample :
    MagGrid.computed_scale ⟨"bsd", 15, 100, 0, 0, 10, 10⟩ ⟨"bsd", 15, 200, 0, 0, 20, 20⟩ = 2 ∧
    ((2 : ℚ) < 1 / 100 ∨ (2 : ℚ) > 9 / 10) ∧
    MagGrid.template_match ⟨"bsd", 15, 100, 0, 0, 10, 10⟩ ⟨"bsd", 15, 200, 0, 0, 20, 20⟩
      (fun _ => some (9 / 10, 3, 4, 5, 6)) = some ⟨3, 4, 5, 6⟩ := by
  refine ⟨by norm_num [MagGrid.computed_scale], by norm_num, ?_⟩
  norm_num [MagGrid.template_match, MagGrid.effective_scale, MagGrid.computed_scale]

/-- C2 amended: whenever the probe-to-search scale factor computed from the
field-of-view ratio (or the magnification ratio as fallback) lies outside
[0.01, 0.9], the code replaces it by the default 0.5 and proceeds with the
match; the call returns a no-result only when an image fails to load or the
correlation score is below the 0.5 threshold. -/
theorem c2_scale_clamped (low high : MagGrid.Metadata)
    (corr : ℚ → Option (ℚ × ℤ × ℤ × ℕ × ℕ))
    (h : MagGrid.computed_scale low high < 1 / 100 ∨
         MagGrid.computed_scale low high > 9 / 10) :
    MagGrid.effective_scale low high = 1 / 2 ∧
    (corr (1 / 2) = none → MagGrid.template_match low high corr = none) ∧
    (∀ v x y w hh, corr (1 / 2) = some (v, x, y, w, hh) → 1 / 2 ≤ v →
      MagGrid.template_match low high corr = some ⟨x, y, w, hh⟩) ∧
    (∀ v x y w hh, corr (1 / 2) = some (v, x, y, w, hh) → v < 1 / 2 →
      MagGrid.template_match low high corr = none) := by
  have hs : MagGrid.effective_scale low high = 1 / 2 := by
    unfold MagGrid.effective_scale
    rw [if_pos h]
  refine ⟨hs, ?_, ?_, ?_⟩
  · intro hc
    unfold MagGrid.template_match
    rw [hs, hc]
  · intro v x y w hh hc hv
    unfold MagGrid.template_match
    rw [hs, hc]
    simp only [MagGrid.MatchRect.mk.injEq]
    rw [if_neg (not_lt.mpr hv)]
  · intro v x y w hh hc hv
    unfold MagGrid.template_match
    rw [hs, hc]
    simp only []
    rw [if_pos hv]

/-- C2 witness: the amended clamping behaviour evaluated at a concrete
metadata pair with scale factor 2 and a load-failure oracle. -/
theorem c2_scale_clamped_witness :
    MagGrid.effective_scale ⟨"sed", 5, 100, 0, 0, 10, 10⟩ ⟨"sed", 5, 200, 0, 0, 20, 20⟩ = 1 / 2 ∧
    ((fun _ => (none : Option (ℚ × ℤ × ℤ × ℕ × ℕ))) (1 / 2 : ℚ) = none →
      MagGrid.template_match ⟨"sed", 5, 100, 0, 0, 10, 10⟩ ⟨"sed", 5, 200, 0, 0, 20, 20⟩
        (fun _ => none) = none) ∧
    (∀ v x y w hh, (fun _ => (none : Option (ℚ × ℤ × ℤ × ℕ × ℕ))) (1 / 2 : ℚ) = some (v, x, y, w, hh) → 1 / 2 ≤ v →
      MagGrid.template_match ⟨"sed", 5, 100, 0, 0, 10, 10⟩ ⟨"sed", 5, 200, 0, 0, 20, 20⟩
        (fun _ => none) = some ⟨x, y, w, hh⟩) ∧
    (∀ v x y w hh, (fun _ => (none : Option (ℚ × ℤ × ℤ × ℕ × ℕ))) (1 / 2 : ℚ) = some (v, x, y, w, hh) → v < 1 / 2 →
      MagGrid.template_match ⟨"sed", 5, 100, 0, 0, 10, 10⟩ ⟨"sed", 5, 200, 0, 0, 20, 20⟩
        (fun _ => none) = none) :=
  c2_scale_clamped ⟨"sed", 5, 100, 0, 0, 10, 10⟩ ⟨"sed", 5, 200, 0, 0, 20, 20⟩
    (fun _ => none) (by norm_num [MagGrid.computed_scale])

/-- Helper: within one mode/voltage group, the containment check reduces to
the magnification ratio test and the rectangle test. -/
theorem check_containment_eq_true_iff (low high : MagGrid.Metadata)
    (hm : low.mode = high.mode) (hv : low.high_voltage_kV = high.high_voltage_kV) :
    MagGrid.check_containment low high = true ↔
      (low.magnification * (3 / 2) ≤ high.magnification ∧
       MagGrid.contains low.sample_position_x low.sample_position_y
         low.field_of_view_width low.field_of_view_height
         high.sample_position_x high.sample_position_y
         high.field_of_view_width high.field_of_view_height = true) := by
  unfold MagGrid.check_containment
  rw [if_neg (by simp [hm, hv])]
  by_cases hmag : high.magnification < low.magnification * (3 / 2)
  · rw [if_pos hmag]
    constructor
    · intro hfalse
      cases hfalse
    · rintro ⟨h1, -⟩
      exact absurd hmag (not_lt.mpr h1)
  · rw [if_neg hmag]
    simp [not_lt.mp hmag]

/-- Helper: a correlation outcome at or above the threshold yields the match
rectangle. -/
theorem template_match_eq_some (low high : MagGrid.Metadata)
    (corr0 : ℚ → Option (ℚ × ℤ × ℤ × ℕ × ℕ)) (v : ℚ) (x y : ℤ) (w h : ℕ)
    (hc : corr0 (MagGrid.effective_scale low high) = some (v, x, y, w, h))
    (hv : 1 / 2 ≤ v) :
    MagGrid.template_match low high corr0 = some ⟨x, y, w, h⟩ := by
  unfold MagGrid.template_match
  rw [hc]
  simp only [MagGrid.MatchRect.mk.injEq]
  rw [if_neg (not_lt.mpr hv)]

/-- Helper: a correlation outcome below the threshold yields no match. -/
theorem template_match_none_of_low (low high : MagGrid.Metadata)
    (corr0 : ℚ → Option (ℚ × ℤ × ℤ × ℕ × ℕ)) (v : ℚ) (x y : ℤ) (w h : ℕ)
    (hc : corr0 (MagGrid.effective_scale low high) = some (v, x, y, w, h))
    (hv : v < 1 / 2) :
    MagGrid.template_match low high corr0 = none := by
  unfold MagGrid.template_match
  rw [hc]
  simp only []
  rw [if_pos hv]

/-- Helper: a failed load yields no match. -/
theorem template_match_none_of_fail (low high : MagGrid.Metadata)
    (corr0 : ℚ → Option (ℚ × ℤ × ℤ × ℕ × ℕ))
    (hc : corr0 (MagGrid.effective_scale low high) = none) :
    MagGrid.template_match low high corr0 = none := by
  unfold MagGrid.template_match
  rw [hc]

/-- Helper: every collection emitted by the head loop has at least 2 members. -/
theorem build_aux_min_length (corr : String → String → ℚ → Option (ℚ × ℤ × ℤ × ℕ × ℕ))
    (l : List MagGrid.Item) (col : MagGrid.Collection)
    (hcol : col ∈ MagGrid.build_aux corr l) : 2 ≤ col.images.length := by
  induction l with
  | nil => cases hcol
  | cons x xs ih =>
    unfold MagGrid.build_aux at hcol
    rcases List.mem_append.mp hcol with hl | hr
    · by_cases hlen : 2 ≤ (MagGrid.build_pyramid corr x xs).length
      · rw [if_pos hlen] at hl
        rcases List.mem_singleton.mp hl with rfl
        exact hlen
      · rw [if_neg hlen] at hl
        cases hl
    · exact ih hr

/-- C3: within a mode/voltage group (the builder is only invoked on such
groups), a candidate is appended to the chain under construction — and made
the new tail — exactly when its magnification is at least 1.5 times the
tail's, its field-of-view rectangle lies inside the tail's, and the template
match scores at or above the 0.5 threshold; when any condition fails the
chain and tail are unchanged; and every emitted collection has at least 2
members. -/
theorem c3_pyramid_chain :
    (∀ (corr : String → String → ℚ → Option (ℚ × ℤ × ℤ × ℕ × ℕ))
       (low cand : MagGrid.Item) (acc : List MagGrid.PyramidEntry),
      low.2.mode = cand.2.mode →
      low.2.high_voltage_kV = cand.2.high_voltage_kV →
      (MagGrid.append_conditions corr low cand →
        (MagGrid.pyramid_step corr (low, acc) cand).1 = cand ∧
        ∃ r, (MagGrid.pyramid_step corr (low, acc) cand).2 =
              acc ++ [⟨cand.1, cand.2, some r⟩]) ∧
      (¬ MagGrid.append_conditions corr low cand →
        MagGrid.pyramid_step corr (low, acc) cand = (low, acc))) ∧
    (∀ (corr : String → String → ℚ → Option (ℚ × ℤ × ℤ × ℕ × ℕ))
       (sorted_images : List MagGrid.Item) (col : MagGrid.Collection),
      col ∈ MagGrid.build_mag_pyramids corr sorted_images →
      2 ≤ col.images.length) := by
  constructor
  · intro corr low cand acc hm hv
    constructor
    · rintro ⟨h1, h2, v, x, y, w, h, hc, hscore⟩
      have hcont : MagGrid.check_containment low.2 cand.2 = true :=
        (check_containment_eq_true_iff low.2 cand.2 hm hv).mpr ⟨h1, h2⟩
      have htm : MagGrid.template_match low.2 cand.2 (corr low.1 cand.1) =
          some ⟨x, y, w, h⟩ :=
        template_match_eq_some low.2 cand.2 (corr low.1 cand.1) v x y w h hc hscore
      unfold MagGrid.pyramid_step
      rw [if_pos hcont, htm]
      exact ⟨rfl, ⟨x, y, w, h⟩, rfl⟩
    · intro hneg
      by_cases hcont : MagGrid.check_containment low.2 cand.2 = true
      · obtain ⟨h1, h2⟩ := (check_containment_eq_true_iff low.2 cand.2 hm hv).mp hcont
        have htm : MagGrid.template_match low.2 cand.2 (corr low.1 cand.1) = none := by
          rcases hc : corr low.1 cand.1 (MagGrid.effective_scale low.2 cand.2) with
            _ | ⟨v, x, y, w, h⟩
          · exact template_match_none_of_fail low.2 cand.2 (corr low.1 cand.1) hc
          · by_cases hscore : 1 / 2 ≤ v
            · exact absurd ⟨h1, h2, v, x, y, w, h, hc, hscore⟩ hneg
            · exact template_match_none_of_low low.2 cand.2 (corr low.1 cand.1)
                v x y w h hc (not_le.mp hscore)
        unfold MagGrid.pyramid_step
        rw [if_pos hcont, htm]
      · unfold MagGrid.pyramid_step
        rw [if_neg (by simpa using hcont)]
  · intro corr sorted_images col hcol
    unfold MagGrid.build_mag_pyramids at hcol
    by_cases hlen : sorted_images.length < 2
    · rw [if_pos hlen] at hcol
      cases hcol
    · rw [if_neg hlen] at hcol
      exact build_aux_min_length corr sorted_images col hcol

/-- C3 witness: the chain step evaluated on a concrete tail, candidate and
correlation oracle satisfying all three append conditions. -/
theorem c3_pyramid_chain_witness :
    ((MagGrid.pyramid_step (fun _ _ _ => some (1, 2, 3, 4, 5))
        (("a", ⟨"bsd", 15, 100, 0, 0, 100, 100⟩), []) ("b", ⟨"bsd", 15, 200, 0, 0, 40, 40⟩)).1 =
      ("b", ⟨"bsd", 15, 200, 0, 0, 40, 40⟩) ∧
     ∃ r, (MagGrid.pyramid_step (fun _ _ _ => some (1, 2, 3, 4, 5))
        (("a", ⟨"bsd", 15, 100, 0, 0, 100, 100⟩), []) ("b", ⟨"bsd", 15, 200, 0, 0, 40, 40⟩)).2 =
      [] ++ [⟨"b", ⟨"bsd", 15, 200, 0, 0, 40, 40⟩, some r⟩]) :=
  ((c3_pyramid_chain.1 (fun _ _ _ => some (1, 2, 3, 4, 5))
      ("a", ⟨"bsd", 15, 100, 0, 0, 100, 100⟩) ("b", ⟨"bsd", 15, 200, 0, 0, 40, 40⟩) []
      rfl rfl).1
    (by
      refine ⟨by norm_num, by norm_num [MagGrid.contains], 1, 2, 3, 4, 5, rfl, by norm_num⟩))

/-- C4: the banding sweep assigns a magnification to an existing band exactly
when it is within the 12 percent tolerance of that band's first (lowest)
member — the band count is unchanged and the value joins a fitting band —
and otherwise starts a new band at the end; in particular the input
[98, 102, 205] produces the bands [98, 102] and [205]. -/
theorem c4_banding_sweep :
    (∀ (gs : List (List ℚ)) (m : ℚ), (∀ g ∈ gs, ¬ CompareGrid.fits_band g m) →
      CompareGrid.place gs m = gs ++ [[m]]) ∧
    (∀ (gs : List (List ℚ)) (m : ℚ) (g₀ : List ℚ), g₀ ∈ gs → CompareGrid.fits_band g₀ m →
      (CompareGrid.place gs m).length = gs.length ∧
        ∃ g ∈ gs, CompareGrid.fits_band g m ∧ g ++ [m] ∈ CompareGrid.place gs m) ∧
    CompareGrid.mag_bands [98, 102, 205] = [[98, 102], [205]] := by
  refine ⟨?_, ?_, ?_⟩
  · intro gs m h
    induction gs with
    | nil => rfl
    | cons g rest ih =>
      simp only [CompareGrid.place]
      rw [if_neg (h g (List.mem_cons_self g rest))]
      rw [ih (fun g' hg' => h g' (List.mem_cons_of_mem _ hg'))]
      rfl
  · intro gs m g₀ hg₀ hfit
    induction gs with
    | nil => cases hg₀
    | cons g rest ih =>
      by_cases hfg : CompareGrid.fits_band g m
      · simp only [CompareGrid.place, if_pos hfg]
        exact ⟨by simp, g, List.mem_cons_self g rest, hfg,
          List.mem_cons_self (g ++ [m]) rest⟩
      · rcases List.mem_cons.mp hg₀ with rfl | hmem
        · exact absurd hfit hfg
        · obtain ⟨hlen, g', hg', hfit', hmem'⟩ := ih hmem
          simp only [CompareGrid.place, if_neg hfg]
          exact ⟨by simp [hlen], g', List.mem_cons_of_mem _ hg', hfit',
            List.mem_cons_of_mem _ hmem'⟩
  · norm_num [CompareGrid.mag_bands, CompareGrid.place, CompareGrid.fits_band]

/-- C4 witness: the sweep step evaluated at concrete bands — 205 is beyond
12 percent of 98 and starts a new band, 102 is within and joins. -/
theorem c4_banding_sweep_witness :
    CompareGrid.place [[98]] 205 = [[98]] ++ [[(205 : ℚ)]] ∧
    (CompareGrid.place [[98]] 102).length = [[(98 : ℚ)]].length := by
  constructor
  · exact c4_banding_sweep.1 [[98]] 205 (fun g hg => by
      rcases List.mem_singleton.mp hg with rfl
      norm_num [CompareGrid.fits_band])
  · exact (c4_banding_sweep.2.1 [[98]] 102 [98] (List.mem_singleton_self _)
      (by norm_num [CompareGrid.fits_band])).1

/-- C7 counterexample: a mixed-detector record with accelerating voltage
15.5 kV is labelled with suffix 15kv — Python int(abs(v)) truncates — while
the claimed rounding to integer kV would give 16kv (15.5 rounds to 16 under
both round-half-up and round-half-to-even). -/
theorem c7_counterexample :
    ModeGrid.get_mode_from_metadata ⟨"x.tif", "Mix", 0, 1, 1, 0, some (31 / 2)⟩ =
      "topo-h_15kv" ∧
    ("topo-h_15kv" : String) ≠ "topo-h_16kv" := by
  constructor
  · have h3 : ModeGrid.kv_suffix (31 / 2) = "15kv" := by
      unfold ModeGrid.kv_suffix
      have hfl : (⌊|(31 : ℚ) / 2|⌋ : ℤ) = 15 := by
        rw [abs_of_nonneg (by norm_num)]
        norm_num [Int.floor_eq_iff]
      rw [hfl]
      decide
    simp +decide [ModeGrid.get_mode_from_metadata, h3]
  · decide

/-- C7 amended: for every metadata record that is not a ChemSEM overlay and
whose detector field indicates a mixed configuration, the classifier yields
the horizontal topography label when |B| > |A| and |C| > |D|, the vertical
one when |A| > |B| and |D| > |C|, and the generic topography label
otherwise; the accelerating voltage — absolute value truncated (not rounded)
to integer kV — is appended as a suffix exactly when it is known. -/
theorem c7_mix_classification (m : ModeGrid.Metadata)
    (hchem : strContains m.filename "ChemiSEM" = false)
    (hmix : strLower m.mode = "mix") :
    ((|m.bsdB| > |m.bsdA| ∧ |m.bsdC| > |m.bsdD|) →
      (∀ v, m.high_voltage_kV = some v →
        ModeGrid.get_mode_from_metadata m =
          "topo-h_" ++ toString (Int.toNat ⌊|v|⌋) ++ "kv") ∧
      (m.high_voltage_kV = none → ModeGrid.get_mode_from_metadata m = "topo-h")) ∧
    ((|m.bsdA| > |m.bsdB| ∧ |m.bsdD| > |m.bsdC|) →
      (∀ v, m.high_voltage_kV = some v →
        ModeGrid.get_mode_from_metadata m =
          "topo-v_" ++ toString (Int.toNat ⌊|v|⌋) ++ "kv") ∧
      (m.high_voltage_kV = none → ModeGrid.get_mode_from_metadata m = "topo-v")) ∧
    (¬(|m.bsdB| > |m.bsdA| ∧ |m.bsdC| > |m.bsdD|) →
     ¬(|m.bsdA| > |m.bsdB| ∧ |m.bsdD| > |m.bsdC|) →
      (∀ v, m.high_voltage_kV = some v →
        ModeGrid.get_mode_from_metadata m =
          "topo_" ++ toString (Int.toNat ⌊|v|⌋) ++ "kv") ∧
      (m.high_voltage_kV = none → ModeGrid.get_mode_from_metadata m = "topo")) := by
  have hbase : ∀ lbl : String,
      (if strLower m.mode = "mix" then some lbl
       else if strLower m.mode = "sed" then some "sed"
            else if strLower m.mode = "bsd" ∨ strLower m.mode = "bsd-all" then some "bsd"
            else none) = some lbl := by
    intro lbl
    rw [if_pos hmix]
  refine ⟨?_, ?_, ?_⟩
  · rintro ⟨hb, hc⟩
    constructor
    · intro v hval
      unfold ModeGrid.get_mode_from_metadata
      rw [if_neg (by simp [hchem]), hval]
      simp only [if_pos hmix, if_pos (And.intro hb hc)]
      rw [ModeGrid.kv_suffix]
      rfl
    · intro hval
      unfold ModeGrid.get_mode_from_metadata
      rw [if_neg (by simp [hchem]), hval]
      simp only [if_pos hmix, if_pos (And.intro hb hc)]
      rfl
  · rintro ⟨ha, hd⟩
    have hnot : ¬(|m.bsdB| > |m.bsdA| ∧ |m.bsdC| > |m.bsdD|) := by
      rintro ⟨hb, -⟩
      exact absurd ha (not_lt.mpr (le_of_lt hb))
    constructor
    · intro v hval
      unfold ModeGrid.get_mode_from_metadata
      rw [if_neg (by simp [hchem]), hval]
      simp only [if_pos hmix, if_neg hnot, if_pos (And.intro ha hd)]
      rw [ModeGrid.kv_suffix]
      rfl
    · intro hval
      unfold ModeGrid.get_mode_from_metadata
      rw [if_neg (by simp [hchem]), hval]
      simp only [if_pos hmix, if_neg hnot, if_pos (And.intro ha hd)]
      rfl
  · intro h1 h2
    constructor
    · intro v hval
      unfold ModeGrid.get_mode_from_metadata
      rw [if_neg (by simp [hchem]), hval]
      simp only [if_pos hmix, if_neg h1, if_neg h2]
      rw [ModeGrid.kv_suffix]
      rfl
    · intro hval
      unfold ModeGrid.get_mode_from_metadata
      rw [if_neg (by simp [hchem]), hval]
      simp only [if_pos hmix, if_neg h1, if_neg h2]
      rfl

/-- C7 witness: the amended classification evaluated on a concrete mixed
record with voltage 15 kV and coefficients selecting the horizontal variant. -/
theorem c7_mix_classification_witness :
    ModeGrid.get_mode_from_metadata ⟨"y.tif", "Mix", 0, 1, 1, 0, some 15⟩ =
      "topo-h_" ++ toString (Int.toNat ⌊|(15 : ℚ)|⌋) ++ "kv" :=
  ((c7_mix_classification ⟨"y.tif", "Mix", 0, 1, 1, 0, some 15⟩ (by decide) (by decide)).1
    (by constructor <;> norm_num)).1 15 rfl

/-- C10: switching a CompareGrid image entry to an alternative exchanges the
selected path with the chosen alternative — the new path is the alternative,
the old path joins the alternatives — and preserves the combined collection
of selected path and alternatives as a multiset (no path lost or
duplicated); and whenever the index is out of range, the given path is not
in the entry's alternatives, or metadata extraction fails, the images list
is returned unchanged. -/
theorem c10_switch_alternative :
    (∀ (μ : Type) (extract : String → Option μ) (images : List (CompareGrid.CGImage μ))
       (idx : ℤ) (alt : String),
      idx < 0 ∨ (images.length : ℤ) ≤ idx →
      CompareGrid.switch_image_alternative extract images idx alt = images) ∧
    (∀ (μ : Type) (extract : String → Option μ) (images : List (CompareGrid.CGImage μ))
       (idx : ℤ) (alt : String) (cur : CompareGrid.CGImage μ),
      images.get? idx.toNat = some cur →
      alt ∉ cur.alternatives →
      CompareGrid.switch_image_alternative extract images idx alt = images) ∧
    (∀ (μ : Type) (extract : String → Option μ) (images : List (CompareGrid.CGImage μ))
       (idx : ℤ) (alt : String),
      extract alt = none →
      CompareGrid.switch_image_alternative extract images idx alt = images) ∧
    (∀ (μ : Type) (extract : String → Option μ) (images : List (CompareGrid.CGImage μ))
       (idx : ℤ) (alt : String) (cur : CompareGrid.CGImage μ) (md : μ),
      ¬(idx < 0 ∨ (images.length : ℤ) ≤ idx) →
      images.get? idx.toNat = some cur →
      alt ∈ cur.alternatives →
      extract alt = some md →
      ∃ e : CompareGrid.CGImage μ,
        CompareGrid.switch_image_alternative extract images idx alt =
          images.set idx.toNat e ∧
        e.path = alt ∧
        cur.path ∈ e.alternatives ∧
        (e.path :: e.alternatives).Perm (cur.path :: cur.alternatives)) := by
  refine ⟨?_, ?_, ?_, ?_⟩
  · intro μ extract images idx alt hrange
    unfold CompareGrid.switch_image_alternative
    rw [if_pos hrange]
  · intro μ extract images idx alt cur hget hmem
    unfold CompareGrid.switch_image_alternative
    by_cases hrange : idx < 0 ∨ (images.length : ℤ) ≤ idx
    · rw [if_pos hrange]
    · rw [if_neg hrange, hget]
      simp only [if_pos hmem]
  · intro μ extract images idx alt hext
    unfold CompareGrid.switch_image_alternative
    by_cases hrange : idx < 0 ∨ (images.length : ℤ) ≤ idx
    · rw [if_pos hrange]
    · rw [if_neg hrange]
      rcases hget : images.get? idx.toNat with _ | cur
      · rfl
      · by_cases hmem : alt ∉ cur.alternatives
        · simp only [if_pos hmem]
        · simp only [if_neg hmem, hext]
  · intro μ extract images idx alt cur md hrange hget hmem hext
    refine ⟨⟨alt, md, (cur.alternatives ++ [cur.path]).erase alt⟩, ?_, rfl, ?_, ?_⟩
    · unfold CompareGrid.switch_image_alternative
      rw [if_neg hrange, hget]
      simp only [if_neg (not_not_intro hmem), hext]
    · have herase : (cur.alternatives ++ [cur.path]).erase alt =
          cur.alternatives.erase alt ++ [cur.path] :=
        List.erase_append_left _ hmem
      rw [herase]
      exact List.mem_append_right _ (List.mem_singleton_self _)
    · have h1 : alt ∈ cur.alternatives ++ [cur.path] := List.mem_append_left _ hmem
      have h2 : (cur.alternatives ++ [cur.path]).Perm
          (alt :: (cur.alternatives ++ [cur.path]).erase alt) :=
        List.perm_cons_erase h1
      exact h2.symm.trans (List.perm_append_singleton _ _)

/-- C10 witness: the switch evaluated on a one-entry collection, exchanging
the selected path with alternative a. -/
theorem c10_switch_alternative_witness :
    ∃ e : CompareGrid.CGImage ℕ,
      CompareGrid.switch_image_alternative (fun _ => some 1)
          [⟨"p", 0, ["a", "b"]⟩] 0 "a" =
        [(⟨"p", 0, ["a", "b"]⟩ : CompareGrid.CGImage ℕ)].set (0 : ℤ).toNat e ∧
      e.path = "a" ∧
      (CompareGrid.CGImage.path ⟨"p", 0, ["a", "b"]⟩) ∈ e.alternatives ∧
      (e.path :: e.alternatives).Perm
        ((CompareGrid.CGImage.path ⟨"p", 0, ["a", "b"]⟩) ::
          (CompareGrid.CGImage.alternatives ⟨"p", 0, ["a", "b"]⟩)) :=
  c10_switch_alternative.2.2.2 ℕ (fun _ => some 1) [⟨"p", 0, ["a", "b"]⟩] 0 "a"
    ⟨"p", 0, ["a", "b"]⟩ 1 (by decide) rfl (by decide) rfl

/-- Helper: insertion keeps the list a permutation of pushing in front. -/
theorem insertSorted_perm {α : Type} (key : α → ℚ) (x : α) (l : List α) :
    (insertSorted key x l).Perm (x :: l) := by
  induction l with
  | nil => exact List.Perm.refl _
  | cons y ys ih =>
    unfold insertSorted
    by_cases h : key y ≤ key x
    · rw [if_pos h]
      exact (List.Perm.cons y ih).trans (List.Perm.swap x y ys)
    · rw [if_neg h]

/-- Helper: the sorting fold permutes the accumulator followed by the input. -/
theorem sortFold_perm {α : Type} (key : α → ℚ) :
    ∀ (l acc : List α),
      (l.foldl (fun acc x => insertSorted key x acc) acc).Perm (acc ++ l) := by
  intro l
  induction l with
  | nil => intro acc; simp
  | cons x xs ih =>
    intro acc
    have h1 := ih (insertSorted key x acc)
    have h2 : (insertSorted key x acc ++ xs).Perm ((x :: acc) ++ xs) :=
      (insertSorted_perm key x acc).append_right xs
    exact (h1.trans h2).trans List.perm_middle.symm

/-- Helper: sorting by key is a permutation. -/
theorem sortByKey_perm {α : Type} (key : α → ℚ) (l : List α) :
    (sortByKey key l).Perm l := by
  have := sortFold_perm key l []
  simpa [sortByKey] using this

/-- Helper: insertion preserves sortedness by the key. -/
theorem insertSorted_pairwise {α : Type} (key : α → ℚ) (x : α) (l : List α)
    (h : l.Pairwise (fun a b => key a ≤ key b)) :
    (insertSorted key x l).Pairwise (fun a b => key a ≤ key b) := by
  induction l with
  | nil => simp [insertSorted]
  | cons y ys ih =>
    obtain ⟨hy, hys⟩ := List.pairwise_cons.mp h
    unfold insertSorted
    by_cases hxy : key y ≤ key x
    · rw [if_pos hxy]
      refine List.pairwise_cons.mpr ⟨?_, ih hys⟩
      intro b hb
      rcases List.mem_cons.mp ((insertSorted_perm key x ys).mem_iff.mp hb) with rfl | hbys
      · exact hxy
      · exact hy b hbys
    · rw [if_neg hxy]
      refine List.pairwise_cons.mpr ⟨?_, h⟩
      intro b hb
      rcases List.mem_cons.mp hb with rfl | hbys
      · exact le_of_lt (not_le.mp hxy)
      · exact le_trans (le_of_lt (not_le.mp hxy)) (hy b hbys)

/-- Helper: the sorting fold preserves sortedness of the accumulator. -/
theorem sortFold_pairwise {α : Type} (key : α → ℚ) :
    ∀ (l acc : List α), acc.Pairwise (fun a b => key a ≤ key b) →
      (l.foldl (fun acc x => insertSorted key x acc) acc).Pairwise
        (fun a b => key a ≤ key b) := by
  intro l
  induction l with
  | nil => intro acc h; exact h
  | cons x xs ih =>
    intro acc h
    exact ih (insertSorted key x acc) (insertSorted_pairwise key x acc h)

/-- Helper: the sorted list is pairwise nondecreasing in the key. -/
theorem sortByKey_pairwise {α : Type} (key : α → ℚ) (l : List α) :
    (sortByKey key l).Pairwise (fun a b => key a ≤ key b) :=
  sortFold_pairwise key l [] (List.Pairwise.nil)

/-- Helper: the head of a key-sorted list minimises the key over its members. -/
theorem sorted_headD_key_le {α : Type} (key : α → ℚ) (l : List α) (d : α)
    (hp : l.Pairwise (fun a b => key a ≤ key b)) (y : α) (hy : y ∈ l) :
    key (l.headD d) ≤ key y := by
  cases l with
  | nil => cases hy
  | cons a rest =>
    rcases List.mem_cons.mp hy with rfl | hmem
    · exact le_refl _
    · exact (List.pairwise_cons.mp hp).1 y hmem

/-- Helper: the selected row of a session pool minimises the distance to the
representative magnification over the whole pool. -/
theorem mk_entry_mag_min (pool : List CompareGrid.Row) (rep : ℚ) (s : String)
    (r : CompareGrid.Row) (hr : r ∈ pool) :
    |(CompareGrid.mk_entry pool rep s).magnification - rep| ≤
      CompareGrid.mag_diff rep r := by
  have hperm := sortByKey_perm (CompareGrid.mag_diff rep) pool
  have hp := sortByKey_pairwise (CompareGrid.mag_diff rep) pool
  have hmem : r ∈ sortByKey (CompareGrid.mag_diff rep) pool := hperm.mem_iff.mpr hr
  exact sorted_headD_key_le (CompareGrid.mag_diff rep) _ ⟨"", none, "", 0, none⟩ hp r hmem

/-- Helper: a session pool entry carries at most four alternatives, each the
image path of a pool row. -/
theorem mk_entry_alternatives (pool : List CompareGrid.Row) (rep : ℚ) (s : String) :
    (CompareGrid.mk_entry pool rep s).alternatives.length ≤ 4 ∧
    ∀ p ∈ (CompareGrid.mk_entry pool rep s).alternatives,
      ∃ r ∈ pool, r.image_path = some p := by
  constructor
  · calc (CompareGrid.mk_entry pool rep s).alternatives.length
        ≤ (((sortByKey (CompareGrid.mag_diff rep) pool).drop 1).take 4).length :=
          List.length_filterMap_le _ _
      _ ≤ 4 := by
          rw [List.length_take]
          exact min_le_left _ _
  · intro p hp
    obtain ⟨r, hrt, hrp⟩ := List.mem_filterMap.mp hp
    have h1 : r ∈ (sortByKey (CompareGrid.mag_diff rep) pool).drop 1 :=
      List.mem_of_mem_take hrt
    have h2 : r ∈ sortByKey (CompareGrid.mag_diff rep) pool :=
      List.mem_of_mem_drop h1
    exact ⟨r, (sortByKey_perm _ _).mem_iff.mp h2, hrp⟩

/-- Helper: inversion of membership in the CompareGrid discovery output. -/
theorem discover_mem (rows : List CompareGrid.Row) (c : CompareGrid.Collection)
    (hc : c ∈ CompareGrid.discover_collections rows) :
    ∃ band ∈ CompareGrid.mag_bands (CompareGrid.mags_of
        (CompareGrid.pair_rows rows c.mode c.high_voltage)),
      c.representative = CompareGrid.representative_mag band ∧
      2 ≤ (CompareGrid.sessions_of
            (CompareGrid.pair_rows rows c.mode c.high_voltage)).length ∧
      2 ≤ (CompareGrid.sessions_of (CompareGrid.window_rows
            (CompareGrid.pair_rows rows c.mode c.high_voltage) c.representative)).length ∧
      c.images = (CompareGrid.sessions_of (CompareGrid.window_rows
            (CompareGrid.pair_rows rows c.mode c.high_voltage) c.representative)).map
          (fun s => CompareGrid.mk_entry
            ((CompareGrid.window_rows (CompareGrid.pair_rows rows c.mode c.high_voltage)
                c.representative).filter (fun r => decide (r.session_id = s)))
            c.representative s) := by
  simp only [CompareGrid.discover_collections, List.mem_flatMap] at hc
  obtain ⟨mv, hmv, hc'⟩ := hc
  by_cases hs2 : 2 ≤ (CompareGrid.sessions_of (CompareGrid.pair_rows rows mv.1 mv.2)).length
  · rw [if_pos hs2] at hc'
    obtain ⟨band, hband, heq⟩ := List.mem_filterMap.mp hc'
    by_cases hsl : (CompareGrid.sessions_of
        (CompareGrid.window_rows (CompareGrid.pair_rows rows mv.1 mv.2)
          (CompareGrid.representative_mag band))).length < 2
    · rw [if_pos hsl] at heq
      cases heq
    · rw [if_neg hsl] at heq
      obtain rfl := Option.some.inj heq
      exact ⟨band, hband, rfl, hs2, not_lt.mp hsl, rfl⟩
  · rw [if_neg hs2] at hc'
    cases hc'

/-- Helper: placing a value at least as large as every current band element
keeps every band sorted and bounded by that value. -/
theorem place_preserves (gs : List (List ℚ)) (m : ℚ)
    (hsorted : ∀ g ∈ gs, g.Pairwise (· ≤ ·))
    (hle : ∀ g ∈ gs, ∀ x ∈ g, x ≤ m) :
    (∀ g ∈ CompareGrid.place gs m, g.Pairwise (· ≤ ·)) ∧
    (∀ g ∈ CompareGrid.place gs m, ∀ x ∈ g, x ≤ m) := by
  induction gs with
  | nil =>
    constructor
    · intro g hg
      rcases List.mem_singleton.mp hg with rfl
      simp
    · intro g hg x hx
      rcases List.mem_singleton.mp hg with rfl
      rcases List.mem_singleton.mp hx with rfl
      exact le_refl _
  | cons g rest ih =>
    have hg0 := hsorted g (List.mem_cons_self g rest)
    have hle0 := hle g (List.mem_cons_self g rest)
    obtain ⟨ih1, ih2⟩ := ih (fun g' hg' => hsorted g' (List.mem_cons_of_mem _ hg'))
      (fun g' hg' => hle g' (List.mem_cons_of_mem _ hg'))
    by_cases hfit : CompareGrid.fits_band g m
    · constructor
      · intro g' hg'
        simp only [CompareGrid.place, if_pos hfit] at hg'
        rcases List.mem_cons.mp hg' with rfl | hmem
        · refine List.pairwise_append.mpr ⟨hg0, List.pairwise_singleton _ _, ?_⟩
          intro a ha b hb
          rcases List.mem_singleton.mp hb with rfl
          exact hle0 a ha
        · exact hsorted _ (List.mem_cons_of_mem _ hmem)
      · intro g' hg' x hx
        simp only [CompareGrid.place, if_pos hfit] at hg'
        rcases List.mem_cons.mp hg' with rfl | hmem
        · rcases List.mem_append.mp hx with hxa | hxb
          · exact hle0 x hxa
          · rcases List.mem_singleton.mp hxb with rfl
            exact le_refl _
        · exact hle _ (List.mem_cons_of_mem _ hmem) x hx
    · constructor
      · intro g' hg'
        simp only [CompareGrid.place, if_neg hfit] at hg'
        rcases List.mem_cons.mp hg' with rfl | hmem
        · exact hg0
        · exact ih1 g' hmem
      · intro g' hg' x hx
        simp only [CompareGrid.place, if_neg hfit] at hg'
        rcases List.mem_cons.mp hg' with rfl | hmem
        · exact hle0 x hx
        · exact ih2 g' hmem x hx

/-- Helper: sweeping an ascending list of magnifications keeps every band
sorted. -/
theorem mag_bands_fold_sorted :
    ∀ (mags : List ℚ) (gs : List (List ℚ)),
      mags.Pairwise (· ≤ ·) →
      (∀ g ∈ gs, g.Pairwise (· ≤ ·)) →
      (∀ g ∈ gs, ∀ x ∈ g, ∀ m ∈ mags, x ≤ m) →
      ∀ g ∈ mags.foldl CompareGrid.place gs, g.Pairwise (· ≤ ·) := by
  intro mags
  induction mags with
  | nil => intro gs _ hs _ g hg; exact hs g hg
  | cons m ms ih =>
    intro gs hp hs hb g hg
    obtain ⟨hm, hms⟩ := List.pairwise_cons.mp hp
    obtain ⟨h1, h2⟩ := place_preserves gs m hs
      (fun g' hg' x hx => hb g' hg' x hx m (List.mem_cons_self m ms))
    refine ih (CompareGrid.place gs m) hms h1 ?_ g hg
    intro g' hg' x hx m' hm'
    exact le_trans (h2 g' hg' x hx) (hm m' hm')

/-- C5: the representative magnification of a band equals the median of the
band's values — bands produced from an ascending magnification list are
sorted, and on a sorted band the code's index formula is exactly the median
(middle value, or mean of the two central values for even size); per session
pool the selected record minimises the distance to the representative over
the session's rows in the band's selection window; and the alternates
attached to it are at most four image paths drawn from those same rows —
not all of the pool's other same-band records. -/
theorem c5_median_selection_alternates :
    (∀ g : List ℚ, CompareGrid.representative_mag g = CompareGrid.median_from_spec g) ∧
    (∀ mags : List ℚ, mags.Pairwise (· ≤ ·) →
      ∀ g ∈ CompareGrid.mag_bands mags, g.Pairwise (· ≤ ·)) ∧
    (∀ (rows : List CompareGrid.Row) (c : CompareGrid.Collection)
       (e : CompareGrid.Entry),
      c ∈ CompareGrid.discover_collections rows → e ∈ c.images →
      (∀ r ∈ CompareGrid.window_rows
          (CompareGrid.pair_rows rows c.mode c.high_voltage) c.representative,
        r.session_id = e.session_id →
        |e.magnification - c.representative| ≤ CompareGrid.mag_diff c.representative r) ∧
      e.alternatives.length ≤ 4 ∧
      (∀ p ∈ e.alternatives,
        ∃ r ∈ CompareGrid.window_rows
            (CompareGrid.pair_rows rows c.mode c.high_voltage) c.representative,
          r.session_id = e.session_id ∧ r.image_path = some p)) := by
  refine ⟨?_, ?_, ?_⟩
  · intro g
    unfold CompareGrid.representative_mag CompareGrid.median_from_spec
    by_cases h : g.length % 2 = 0
    · rw [if_pos h]
      have h1 : (g.length - 1) / 2 = g.length / 2 - 1 := by omega
      rw [h1]
    · rw [if_neg h]
      have h1 : (g.length - 1) / 2 = g.length / 2 := by omega
      rw [h1]
      ring
  · intro mags hp g hg
    exact mag_bands_fold_sorted mags [] hp (by simp) (by simp) g hg
  · intro rows c e hc he
    obtain ⟨band, hband, hrep, hs2, hw2, himg⟩ := discover_mem rows c hc
    rw [himg] at he
    obtain ⟨s, hs, rfl⟩ := List.mem_map.mp he
    have hsess : (CompareGrid.mk_entry
        ((CompareGrid.window_rows (CompareGrid.pair_rows rows c.mode c.high_voltage)
            c.representative).filter (fun r => decide (r.session_id = s)))
        c.representative s).session_id = s := rfl
    refine ⟨?_, (mk_entry_alternatives _ _ _).1, ?_⟩
    · intro r hr hrs
      rw [hsess] at hrs
      have hrpool : r ∈ (CompareGrid.window_rows
          (CompareGrid.pair_rows rows c.mode c.high_voltage)
          c.representative).filter (fun r => decide (r.session_id = s)) :=
        List.mem_filter.mpr ⟨hr, by simp [hrs]⟩
      exact mk_entry_mag_min _ c.representative s r hrpool
    · intro p hp
      obtain ⟨r, hrpool, hrp⟩ := (mk_entry_alternatives _ _ _).2 p hp
      obtain ⟨hrw, hrs⟩ := List.mem_filter.mp hrpool
      refine ⟨r, hrw, ?_, hrp⟩
      rw [hsess]
      exact of_decide_eq_true hrs

/-- C6 amended: a CrossSessionSet collection is emitted only for a (mode,
voltage) pair that appears, by exact match, in at least two distinct session
pools, and only when at least two distinct session pools have rows inside
the band's selection window (within 12 percent of the representative
magnification — which may include rows whose magnification is not a member
of the band itself); the collection holds exactly one selected record per
such session. -/
theorem c6_two_pool_emission (rows : List CompareGrid.Row)
    (c : CompareGrid.Collection) (hc : c ∈ CompareGrid.discover_collections rows) :
    2 ≤ (CompareGrid.sessions_of
          (CompareGrid.pair_rows rows c.mode c.high_voltage)).length ∧
    2 ≤ (CompareGrid.sessions_of (CompareGrid.window_rows
          (CompareGrid.pair_rows rows c.mode c.high_voltage) c.representative)).length ∧
    c.images.map CompareGrid.Entry.session_id =
      CompareGrid.sessions_of (CompareGrid.window_rows
        (CompareGrid.pair_rows rows c.mode c.high_voltage) c.representative) := by
  obtain ⟨band, hband, hrep, hs2, hw2, himg⟩ := discover_mem rows c hc
  refine ⟨hs2, hw2, ?_⟩
  rw [himg, List.map_map]
  have hcomp : (CompareGrid.Entry.session_id ∘ fun s => CompareGrid.mk_entry
      ((CompareGrid.window_rows (CompareGrid.pair_rows rows c.mode c.high_voltage)
          c.representative).filter (fun r => decide (r.session_id = s)))
      c.representative s) = id := funext fun s => rfl
  rw [hcomp, List.map_id]

/-- Helper: the discovery output on the c5_rows pool, computed in full. -/
theorem c5_discover_eval :
    CompareGrid.discover_collections CompareGrid.c5_rows = [CompareGrid.c5_expected] := by
  have e4 : CompareGrid.mag_bands (CompareGrid.mags_of
      (CompareGrid.pair_rows CompareGrid.c5_rows "m" 15)) =
      [[100, 102, 105, 107, 108, 109, 110]] := by
    rw [show CompareGrid.mags_of (CompareGrid.pair_rows CompareGrid.c5_rows "m" 15) =
        [100, 102, 105, 107, 108, 109, 110] from by decide]
    norm_num [CompareGrid.mag_bands, CompareGrid.place, CompareGrid.fits_band]
  have e6 : CompareGrid.window_rows
      (CompareGrid.pair_rows CompareGrid.c5_rows "m" 15) 107 = CompareGrid.c5_rows := by
    rw [show CompareGrid.pair_rows CompareGrid.c5_rows "m" 15 = CompareGrid.c5_rows from
      by decide]
    norm_num [CompareGrid.window_rows, CompareGrid.c5_rows, List.filter,
      CompareGrid.in_window]
  simp only [CompareGrid.discover_collections]
  rw [show CompareGrid.unique_pairs CompareGrid.c5_rows = [("m", 15)] from by decide]
  simp only [List.flatMap_cons, List.flatMap_nil, List.append_nil]
  rw [show (CompareGrid.sessions_of
      (CompareGrid.pair_rows CompareGrid.c5_rows "m" 15)).length = 2 from by decide]
  simp only [if_pos (by norm_num : (2 : ℕ) ≤ 2)]
  rw [e4]
  simp only [List.filterMap_cons, List.filterMap_nil]
  rw [show CompareGrid.representative_mag [100, 102, 105, 107, 108, 109, 110] = 107 from
    by decide]
  rw [e6]
  rw [show CompareGrid.sessions_of CompareGrid.c5_rows = ["A", "B"] from by decide]
  simp only [List.length_cons, List.length_nil]
  rw [if_neg (by norm_num)]
  simp only [List.map_cons, List.map_nil]
  rw [show CompareGrid.mk_entry
      (CompareGrid.c5_rows.filter (fun r => decide (r.session_id = "A"))) 107 "A" =
      ⟨some "a4", "A", 107, ["a5", "a3", "a6", "a2"]⟩ from by
    rw [show CompareGrid.c5_rows.filter (fun r => decide (r.session_id = "A")) =
        [⟨"A", some "a1", "m", 15, some 100⟩,
         ⟨"A", some "a2", "m", 15, some 102⟩,
         ⟨"A", some "a3", "m", 15, some 105⟩,
         ⟨"A", some "a4", "m", 15, some 107⟩,
         ⟨"A", some "a5", "m", 15, some 108⟩,
         ⟨"A", some "a6", "m", 15, some 110⟩] from by decide]
    norm_num [CompareGrid.mk_entry, sortByKey, insertSorted, CompareGrid.mag_diff,
      List.filterMap_cons]]
  rw [show CompareGrid.mk_entry
      (CompareGrid.c5_rows.filter (fun r => decide (r.session_id = "B"))) 107 "B" =
      ⟨some "b1", "B", 109, []⟩ from by
    rw [show CompareGrid.c5_rows.filter (fun r => decide (r.session_id = "B")) =
        [⟨"B", some "b1", "m", 15, some 109⟩] from by decide]
    norm_num [CompareGrid.mk_entry, sortByKey, insertSorted, CompareGrid.mag_diff,
      List.filterMap_cons]]
  rfl

/-- C5 counterexample: on the c5_rows pool the discovered collection selects
a4 for session A and attaches only four alternates, although session A has
six records in the band — the same-band record a1 is neither selected nor
attached as an alternate, refuting "all other same-band records become
alternates". -/
theorem c5_counterexample :
    CompareGrid.discover_collections CompareGrid.c5_rows = [CompareGrid.c5_expected] ∧
    (⟨"A", some "a1", "m", 15, some 100⟩ : CompareGrid.Row) ∈
      CompareGrid.window_rows (CompareGrid.pair_rows CompareGrid.c5_rows "m" 15) 107 ∧
    CompareGrid.c5_expected.images.map CompareGrid.Entry.path =
      [some "a4", some "b1"] ∧
    CompareGrid.c5_expected.images.map CompareGrid.Entry.alternatives =
      [["a5", "a3", "a6", "a2"], []] := by
  refine ⟨c5_discover_eval, ?_, rfl, rfl⟩
  rw [show CompareGrid.pair_rows CompareGrid.c5_rows "m" 15 = CompareGrid.c5_rows from
    by decide]
  refine List.mem_filter.mpr ⟨by decide, ?_⟩
  norm_num [CompareGrid.in_window]

/-- Helper: the discovery output on the minimal two-session pool. -/
theorem cw_discover_eval :
    CompareGrid.discover_collections CompareGrid.cw_rows = [CompareGrid.cw_col] := by
  have e4 : CompareGrid.mag_bands (CompareGrid.mags_of
      (CompareGrid.pair_rows CompareGrid.cw_rows "m" 15)) = [[100]] := by
    rw [show CompareGrid.mags_of (CompareGrid.pair_rows CompareGrid.cw_rows "m" 15) =
        [100] from by decide]
    norm_num [CompareGrid.mag_bands, CompareGrid.place, CompareGrid.fits_band]
  have e6 : CompareGrid.window_rows
      (CompareGrid.pair_rows CompareGrid.cw_rows "m" 15) 100 = CompareGrid.cw_rows := by
    rw [show CompareGrid.pair_rows CompareGrid.cw_rows "m" 15 = CompareGrid.cw_rows from
      by decide]
    norm_num [CompareGrid.window_rows, CompareGrid.cw_rows, List.filter,
      CompareGrid.in_window]
  simp only [CompareGrid.discover_collections]
  rw [show CompareGrid.unique_pairs CompareGrid.cw_rows = [("m", 15)] from by decide]
  simp only [List.flatMap_cons, List.flatMap_nil, List.append_nil]
  rw [show (CompareGrid.sessions_of
      (CompareGrid.pair_rows CompareGrid.cw_rows "m" 15)).length = 2 from by decide]
  simp only [if_pos (by norm_num : (2 : ℕ) ≤ 2)]
  rw [e4]
  simp only [List.filterMap_cons, List.filterMap_nil]
  rw [show CompareGrid.representative_mag [100] = 100 from by decide]
  rw [e6]
  rw [show CompareGrid.sessions_of CompareGrid.cw_rows = ["A", "B"] from by decide]
  simp only [List.length_cons, List.length_nil]
  rw [if_neg (by norm_num)]
  simp only [List.map_cons, List.map_nil]
  rw [show CompareGrid.mk_entry
      (CompareGrid.cw_rows.filter (fun r => decide (r.session_id = "A"))) 100 "A" =
      ⟨some "pa", "A", 100, []⟩ from by
    rw [show CompareGrid.cw_rows.filter (fun r => decide (r.session_id = "A")) =
        [⟨"A", some "pa", "m", 15, some 100⟩] from by decide]
    norm_num [CompareGrid.mk_entry, sortByKey, insertSorted, CompareGrid.mag_diff,
      List.filterMap_cons]]
  rw [show CompareGrid.mk_entry
      (CompareGrid.cw_rows.filter (fun r => decide (r.session_id = "B"))) 100 "B" =
      ⟨some "pb", "B", 100, []⟩ from by
    rw [show CompareGrid.cw_rows.filter (fun r => decide (r.session_id = "B")) =
        [⟨"B", some "pb", "m", 15, some 100⟩] from by decide]
    norm_num [CompareGrid.mk_entry, sortByKey, insertSorted, CompareGrid.mag_diff,
      List.filterMap_cons]]
  rfl

/-- C5 witness: the amended selection properties instantiated on the minimal
two-session pool and its session-A entry. -/
theorem c5_witness :
    (∀ r ∈ CompareGrid.window_rows
        (CompareGrid.pair_rows CompareGrid.cw_rows CompareGrid.cw_col.mode
          CompareGrid.cw_col.high_voltage) CompareGrid.cw_col.representative,
      r.session_id = CompareGrid.cw_entry.session_id →
      |CompareGrid.cw_entry.magnification - CompareGrid.cw_col.representative| ≤
        CompareGrid.mag_diff CompareGrid.cw_col.representative r) ∧
    CompareGrid.cw_entry.alternatives.length ≤ 4 ∧
    (∀ p ∈ CompareGrid.cw_entry.alternatives,
      ∃ r ∈ CompareGrid.window_rows
          (CompareGrid.pair_rows CompareGrid.cw_rows CompareGrid.cw_col.mode
            CompareGrid.cw_col.high_voltage) CompareGrid.cw_col.representative,
        r.session_id = CompareGrid.cw_entry.session_id ∧ r.image_path = some p) :=
  c5_median_selection_alternates.2.2 CompareGrid.cw_rows CompareGrid.cw_col
    CompareGrid.cw_entry
    (by rw [cw_discover_eval]; exact List.mem_singleton_self _)
    (by simp [CompareGrid.cw_col, CompareGrid.cw_entry])

/-- C6 witness: the amended emission conditions instantiated on the minimal
two-session pool. -/
theorem c6_witness :
    2 ≤ (CompareGrid.sessions_of
          (CompareGrid.pair_rows CompareGrid.cw_rows CompareGrid.cw_col.mode
            CompareGrid.cw_col.high_voltage)).length ∧
    2 ≤ (CompareGrid.sessions_of (CompareGrid.window_rows
          (CompareGrid.pair_rows CompareGrid.cw_rows CompareGrid.cw_col.mode
            CompareGrid.cw_col.high_voltage) CompareGrid.cw_col.representative)).length ∧
    CompareGrid.cw_col.images.map CompareGrid.Entry.session_id =
      CompareGrid.sessions_of (CompareGrid.window_rows
        (CompareGrid.pair_rows CompareGrid.cw_rows CompareGrid.cw_col.mode
          CompareGrid.cw_col.high_voltage) CompareGrid.cw_col.representative) :=
  c6_two_pool_emission CompareGrid.cw_rows CompareGrid.cw_col
    (by rw [cw_discover_eval]; exact List.mem_singleton_self _)

/-- Helper: the discovery output on the c6_rows pool, computed in full. -/
theorem c6_discover_eval :
    CompareGrid.discover_collections CompareGrid.c6_rows =
      [CompareGrid.c6_band1_col, CompareGrid.c6_band2_col] := by
  have epair : CompareGrid.pair_rows CompareGrid.c6_rows "m" 15 = CompareGrid.c6_rows := by
    decide
  have e4 : CompareGrid.mag_bands (CompareGrid.mags_of
      (CompareGrid.pair_rows CompareGrid.c6_rows "m" 15)) = [[100, 112], [113]] := by
    rw [show CompareGrid.mags_of (CompareGrid.pair_rows CompareGrid.c6_rows "m" 15) =
        [100, 112, 113] from by decide]
    norm_num [CompareGrid.mag_bands, CompareGrid.place, CompareGrid.fits_band]
  have erep1 : CompareGrid.representative_mag [100, 112] = 106 := by
    norm_num [CompareGrid.representative_mag]
  have ew1 : CompareGrid.window_rows
      (CompareGrid.pair_rows CompareGrid.c6_rows "m" 15) 106 = CompareGrid.c6_rows := by
    rw [epair]
    norm_num [CompareGrid.window_rows, CompareGrid.c6_rows, List.filter,
      CompareGrid.in_window]
  have ew2 : CompareGrid.window_rows
      (CompareGrid.pair_rows CompareGrid.c6_rows "m" 15) 113 = CompareGrid.c6_rows := by
    rw [epair]
    norm_num [CompareGrid.window_rows, CompareGrid.c6_rows, List.filter,
      CompareGrid.in_window]
  have efA : CompareGrid.c6_rows.filter (fun r => decide (r.session_id = "A")) =
      [⟨"A", some "x1", "m", 15, some 100⟩, ⟨"A", some "x2", "m", 15, some 112⟩] := by
    decide
  have efB : CompareGrid.c6_rows.filter (fun r => decide (r.session_id = "B")) =
      [⟨"B", some "y1", "m", 15, some 113⟩] := by
    decide
  simp only [CompareGrid.discover_collections]
  rw [show CompareGrid.unique_pairs CompareGrid.c6_rows = [("m", 15)] from by decide]
  simp only [List.flatMap_cons, List.flatMap_nil, List.append_nil]
  rw [show (CompareGrid.sessions_of
      (CompareGrid.pair_rows CompareGrid.c6_rows "m" 15)).length = 2 from by decide]
  simp only [if_pos (by norm_num : (2 : ℕ) ≤ 2)]
  rw [e4]
  simp only [List.filterMap_cons, List.filterMap_nil]
  rw [erep1]
  rw [show CompareGrid.representative_mag [113] = 113 from by decide]
  rw [ew1, ew2]
  rw [show CompareGrid.sessions_of CompareGrid.c6_rows = ["A", "B"] from by decide]
  simp only [List.length_cons, List.length_nil]
  rw [if_neg (by norm_num), if_neg (by norm_num)]
  simp only [List.map_cons, List.map_nil]
  rw [show CompareGrid.mk_entry
      (CompareGrid.c6_rows.filter (fun r => decide (r.session_id = "A"))) 106 "A" =
      ⟨some "x1", "A", 100, ["x2"]⟩ from by
    rw [efA]
    norm_num [CompareGrid.mk_entry, sortByKey, insertSorted, CompareGrid.mag_diff,
      List.filterMap_cons]]
  rw [show CompareGrid.mk_entry
      (CompareGrid.c6_rows.filter (fun r => decide (r.session_id = "B"))) 106 "B" =
      ⟨some "y1", "B", 113, []⟩ from by
    rw [efB]
    norm_num [CompareGrid.mk_entry, sortByKey, insertSorted, CompareGrid.mag_diff,
      List.filterMap_cons]]
  rw [show CompareGrid.mk_entry
      (CompareGrid.c6_rows.filter (fun r => decide (r.session_id = "A"))) 113 "A" =
      ⟨some "x2", "A", 112, ["x1"]⟩ from by
    rw [efA]
    norm_num [CompareGrid.mk_entry, sortByKey, insertSorted, CompareGrid.mag_diff,
      List.filterMap_cons]]
  rw [show CompareGrid.mk_entry
      (CompareGrid.c6_rows.filter (fun r => decide (r.session_id = "B"))) 113 "B" =
      ⟨some "y1", "B", 113, []⟩ from by
    rw [efB]
    norm_num [CompareGrid.mk_entry, sortByKey, insertSorted, CompareGrid.mag_diff,
      List.filterMap_cons]]
  rfl

/-- C6 counterexample: on the c6_rows pool the banding sweep yields the bands
[100, 112] and [113]; all rows whose magnification belongs to the band
[100, 112] come from the single session A, yet the code emits a collection
for that band (representative 106) with records from both sessions — B's
selected record has magnification 113, outside the band.  This refutes
"bands with images from fewer than two pools produce no collection". -/
theorem c6_counterexample :
    CompareGrid.mag_bands (CompareGrid.mags_of
      (CompareGrid.pair_rows CompareGrid.c6_rows "m" 15)) = [[100, 112], [113]] ∧
    CompareGrid.representative_mag [100, 112] = 106 ∧
    CompareGrid.discover_collections CompareGrid.c6_rows =
      [CompareGrid.c6_band1_col, CompareGrid.c6_band2_col] ∧
    CompareGrid.c6_band1_col.representative = 106 ∧
    CompareGrid.c6_band1_col.images.map CompareGrid.Entry.session_id = ["A", "B"] ∧
    CompareGrid.sessions_of (CompareGrid.c6_rows.filter (fun r =>
      decide (r.magnification = some 100 ∨ r.magnification = some 112))) = ["A"] := by
  refine ⟨?_, by norm_num [CompareGrid.representative_mag], c6_discover_eval, rfl, rfl,
    by decide⟩
  rw [show CompareGrid.mags_of (CompareGrid.pair_rows CompareGrid.c6_rows "m" 15) =
      [100, 112, 113] from by decide]
  norm_num [CompareGrid.mag_bands, CompareGrid.place, CompareGrid.fits_band]

/-- C9 counterexample: the two pools hold the same three records — two
regular images named img1.tif at different stage positions and one matching
ChemSEM overlay — in different orders; the dictionary of base names keeps
only the last regular image per base, so the ChemSEM record attaches to a
different cluster in each order and the resulting sets of cluster
memberships differ. -/
theorem c9_counterexample :
    ModeGrid.c9_pool1.Perm ModeGrid.c9_pool2 ∧
    ModeGrid.cluster_sets ModeGrid.c9_pool1 ≠ ModeGrid.cluster_sets ModeGrid.c9_pool2 := by
  constructor
  · exact List.Perm.swap _ _ _
  · decide

/-- Helper: inserting a path under a key updates the unique group of that key
(or appends a fresh group), preserving key uniqueness; group contents are
tracked by the function prior. -/
theorem group_insert_main (gs : List ((ℚ × ℚ) × List String)) (k : ℚ × ℚ) (p : String)
    (prior : ℚ × ℚ → List String)
    (hnd : (gs.map Prod.fst).Nodup)
    (hpair : ∀ kp ∈ gs, kp.2 = prior kp.1)
    (hk : k ∉ gs.map Prod.fst → prior k = []) :
    ((ModeGrid.group_insert gs k p).map Prod.fst).Nodup ∧
    (∀ kp ∈ ModeGrid.group_insert gs k p,
      kp.2 = (if kp.1 = k then prior k ++ [p] else prior kp.1)) ∧
    (∀ k', k' ∈ (ModeGrid.group_insert gs k p).map Prod.fst ↔
      k' ∈ gs.map Prod.fst ∨ k' = k) := by
  induction gs with
  | nil =>
    refine ⟨by simp [ModeGrid.group_insert], ?_, by simp [ModeGrid.group_insert]⟩
    intro kp hkp
    simp only [ModeGrid.group_insert] at hkp
    rcases List.mem_singleton.mp hkp with rfl
    simp [hk (by simp)]
  | cons g rest ih =>
    simp only [List.map_cons, List.nodup_cons] at hnd
    obtain ⟨hg1, hndr⟩ := hnd
    by_cases hgk : g.1 = k
    · constructor
      · simp only [ModeGrid.group_insert, if_pos hgk, List.map_cons, List.nodup_cons]
        exact ⟨hg1, hndr⟩
      constructor
      · intro kp hkp
        simp only [ModeGrid.group_insert, if_pos hgk] at hkp
        rcases List.mem_cons.mp hkp with rfl | hmem
        · show g.2 ++ [p] = if g.1 = k then prior k ++ [p] else prior g.1
          rw [if_pos hgk, hpair g (List.mem_cons_self g rest), hgk]
        · have hne : kp.1 ≠ k := by
            intro he
            apply hg1
            rw [hgk, ← he]
            exact List.mem_map.mpr ⟨kp, hmem, rfl⟩
          rw [if_neg hne]
          exact hpair kp (List.mem_cons_of_mem _ hmem)
      · intro k'
        simp only [ModeGrid.group_insert, if_pos hgk, List.map_cons, List.mem_cons]
        constructor
        · exact fun h => Or.inl h
        · rintro (h | rfl)
          · exact h
          · exact Or.inl hgk.symm
    · have hkrest : k ∉ rest.map Prod.fst → prior k = [] := by
        intro hnm
        apply hk
        simp only [List.map_cons, List.mem_cons]
        rintro (h | h)
        · exact hgk h.symm
        · exact hnm h
      obtain ⟨ih1, ih2, ih3⟩ := ih hndr
        (fun kp hkp => hpair kp (List.mem_cons_of_mem _ hkp)) hkrest
      constructor
      · simp only [ModeGrid.group_insert, if_neg hgk, List.map_cons, List.nodup_cons]
        refine ⟨?_, ih1⟩
        intro hmem
        rcases (ih3 g.1).mp hmem with h | h
        · exact hg1 h
        · exact hgk h
      constructor
      · intro kp hkp
        simp only [ModeGrid.group_insert, if_neg hgk] at hkp
        rcases List.mem_cons.mp hkp with rfl | hmem
        · rw [if_neg hgk]
          exact hpair kp (List.mem_cons_self _ _)
        · exact ih2 kp hmem
      · intro k'
        simp only [ModeGrid.group_insert, if_neg hgk, List.map_cons, List.mem_cons]
        rw [ih3 k']
        tauto

/-- Helper: characterisation of the exact-position grouping fold — keys stay
unique and each group collects, in order, the paths of the usable non-ChemSEM
records at its position. -/
theorem egroups_fold (rs : List ModeGrid.PRecord) :
    ∀ (gs : List ((ℚ × ℚ) × List String)) (prior : ℚ × ℚ → List String),
    (gs.map Prod.fst).Nodup →
    (∀ kp ∈ gs, kp.2 = prior kp.1) →
    (∀ k, k ∉ gs.map Prod.fst → prior k = []) →
    (((rs.foldl (fun gs r => if ModeGrid.is_chemsem r then gs
        else ModeGrid.group_insert gs (ModeGrid.pos_key r) r.path) gs).map Prod.fst).Nodup) ∧
    (∀ kp ∈ rs.foldl (fun gs r => if ModeGrid.is_chemsem r then gs
        else ModeGrid.group_insert gs (ModeGrid.pos_key r) r.path) gs,
      kp.2 = prior kp.1 ++
        ((rs.filter (fun r => !ModeGrid.is_chemsem r &&
            decide (ModeGrid.pos_key r = kp.1))).map (fun r => r.path))) ∧
    (∀ k, k ∈ (rs.foldl (fun gs r => if ModeGrid.is_chemsem r then gs
        else ModeGrid.group_insert gs (ModeGrid.pos_key r) r.path) gs).map Prod.fst ↔
      k ∈ gs.map Prod.fst ∨
        k ∈ (rs.filter (fun r => !ModeGrid.is_chemsem r)).map ModeGrid.pos_key) := by
  induction rs with
  | nil =>
    intro gs prior hnd hpair _
    refine ⟨hnd, ?_, by simp⟩
    intro kp hkp
    simpa using hpair kp hkp
  | cons r rest ih =>
    intro gs prior hnd hpair hout
    by_cases hch : ModeGrid.is_chemsem r
    · have hstep : (fun gs r => if ModeGrid.is_chemsem r then gs
          else ModeGrid.group_insert gs (ModeGrid.pos_key r) r.path) gs r = gs := by
        simp [hch]
      obtain ⟨j1, j2, j3⟩ := ih gs prior hnd hpair hout
      simp only [List.foldl_cons, hstep]
      refine ⟨j1, ?_, ?_⟩
      · intro kp hkp
        rw [j2 kp hkp]
        congr 2
        simp [List.filter_cons, hch]
      · intro k
        rw [j3 k]
        simp [List.filter_cons, hch]
    · have hstep : (fun gs r => if ModeGrid.is_chemsem r then gs
          else ModeGrid.group_insert gs (ModeGrid.pos_key r) r.path) gs r =
          ModeGrid.group_insert gs (ModeGrid.pos_key r) r.path := by
        simp [hch]
      obtain ⟨g1, g2, g3⟩ := group_insert_main gs (ModeGrid.pos_key r) r.path prior hnd
        hpair (hout (ModeGrid.pos_key r))
      set prior1 : ℚ × ℚ → List String :=
        fun k => if k = ModeGrid.pos_key r then prior (ModeGrid.pos_key r) ++ [r.path]
                 else prior k with hprior1
      have hpair1 : ∀ kp ∈ ModeGrid.group_insert gs (ModeGrid.pos_key r) r.path,
          kp.2 = prior1 kp.1 := g2
      have hout1 : ∀ k,
          k ∉ (ModeGrid.group_insert gs (ModeGrid.pos_key r) r.path).map Prod.fst →
          prior1 k = [] := by
        intro k hk
        rw [g3 k] at hk
        push_neg at hk
        simp only [hprior1]
        rw [if_neg hk.2]
        exact hout k hk.1
      obtain ⟨j1, j2, j3⟩ := ih (ModeGrid.group_insert gs (ModeGrid.pos_key r) r.path)
        prior1 g1 hpair1 hout1
      simp only [List.foldl_cons, hstep]
      refine ⟨j1, ?_, ?_⟩
      · intro kp hkp
        rw [j2 kp hkp]
        simp only [hprior1]
        by_cases hkey : kp.1 = ModeGrid.pos_key r
        · rw [if_pos hkey]
          rw [List.filter_cons, if_pos (by simp [hch, hkey.symm])]
          simp only [List.map_cons, List.append_assoc, List.singleton_append]
          rw [hkey]
        · rw [if_neg hkey]
          rw [List.filter_cons, if_neg (by simp [hch]; intro he; exact hkey he.symm)]
      · intro k
        rw [j3 k, g3 k]
        rw [List.filter_cons, if_pos (by simp [hch])]
        simp only [List.map_cons, List.mem_cons]
        tauto

/-- Helper: keys of the exact-position groups are unique. -/
theorem epg_nodup (pool : List ModeGrid.PRecord) :
    ((ModeGrid.exact_position_groups pool).map Prod.fst).Nodup :=
  (egroups_fold (ModeGrid.valid_images pool) [] (fun _ => [])
    (by simp) (by simp) (fun _ _ => rfl)).1

/-- Helper: each exact-position group holds precisely the paths of the
usable non-ChemSEM records at its position. -/
theorem epg_pairs (pool : List ModeGrid.PRecord) :
    ∀ kp ∈ ModeGrid.exact_position_groups pool, kp.2 = ModeGrid.paths_at pool kp.1 := by
  intro kp hkp
  have := (egroups_fold (ModeGrid.valid_images pool) [] (fun _ => [])
    (by simp) (by simp) (fun _ _ => rfl)).2.1 kp hkp
  simpa [ModeGrid.paths_at] using this

/-- Helper: the keys of the exact-position groups are exactly the positions
of the usable non-ChemSEM records. -/
theorem epg_keys (pool : List ModeGrid.PRecord) :
    ∀ k, k ∈ (ModeGrid.exact_position_groups pool).map Prod.fst ↔
      k ∈ ((ModeGrid.valid_images pool).filter
        (fun r => !ModeGrid.is_chemsem r)).map ModeGrid.pos_key := by
  intro k
  have := (egroups_fold (ModeGrid.valid_images pool) [] (fun _ => [])
    (by simp) (by simp) (fun _ _ => rfl)).2.2 k
  simpa using this

/-- Helper: folding dictionary insertions with pairwise-fresh keys just
appends the key-value pairs. -/
theorem dict_fresh_fold (key : ModeGrid.PRecord → String) :
    ∀ (rs : List ModeGrid.PRecord) (d : List (String × String)),
    (d.map Prod.fst ++ rs.map key).Nodup →
    rs.foldl (fun d r => ModeGrid.dict_insert d (key r) r.path) d =
      d ++ rs.map (fun r => (key r, r.path)) := by
  intro rs
  induction rs with
  | nil => intro d _; simp
  | cons r rest ih =>
    intro d hnd
    have hfresh : key r ∉ d.map Prod.fst := by
      intro hmem
      have := (List.nodup_append.mp hnd).2.2
      exact this hmem (by simp)
    have hins : ModeGrid.dict_insert d (key r) r.path = d ++ [(key r, r.path)] := by
      unfold ModeGrid.dict_insert
      rw [if_neg ?_]
      simp only [List.any_eq_true, not_exists, not_and]
      intro p hp
      simp only [beq_iff_eq]
      intro he
      exact hfresh (List.mem_map.mpr ⟨p, hp, he⟩)
    have hnd' : ((d ++ [(key r, r.path)]).map Prod.fst ++ rest.map key).Nodup := by
      rw [List.map_append, List.append_assoc]
      simpa [List.append_assoc] using hnd
    simp only [List.foldl_cons, hins]
    rw [ih (d ++ [(key r, r.path)]) hnd']
    simp [List.append_assoc]

/-- Helper: the ChemSEM-image fold skips non-ChemSEM records. -/
theorem chem_fold_filter :
    ∀ (rs : List ModeGrid.PRecord) (d : List (String × String)),
    rs.foldl (fun d r => if ModeGrid.is_chemsem r then
        ModeGrid.dict_insert d (ModeGrid.chem_base r) r.path else d) d =
      (rs.filter (fun r => ModeGrid.is_chemsem r)).foldl
        (fun d r => ModeGrid.dict_insert d (ModeGrid.chem_base r) r.path) d := by
  intro rs
  induction rs with
  | nil => intro d; rfl
  | cons r rest ih =>
    intro d
    by_cases h : ModeGrid.is_chemsem r
    · simp [List.filter_cons, h, ih]
    · simp [List.filter_cons, h, ih]

/-- Helper: the regular-image fold skips ChemSEM records. -/
theorem normal_fold_filter :
    ∀ (rs : List ModeGrid.PRecord) (d : List (String × String)),
    rs.foldl (fun d r => if ModeGrid.is_chemsem r then d else
        ModeGrid.dict_insert d (ModeGrid.normal_base r) r.path) d =
      (rs.filter (fun r => !ModeGrid.is_chemsem r)).foldl
        (fun d r => ModeGrid.dict_insert d (ModeGrid.normal_base r) r.path) d := by
  intro rs
  induction rs with
  | nil => intro d; rfl
  | cons r rest ih =>
    intro d
    by_cases h : ModeGrid.is_chemsem r
    · simp [List.filter_cons, h, ih]
    · simp [List.filter_cons, h, ih]

/-- Helper: with unique regular base names the regular-image dictionary is
the base/path list of the regular records. -/
theorem normal_images_eq (pool : List ModeGrid.PRecord)
    (h2 : (((ModeGrid.valid_images pool).filter
      (fun r => !ModeGrid.is_chemsem r)).map ModeGrid.normal_base).Nodup) :
    ModeGrid.normal_images pool =
      ((ModeGrid.valid_images pool).filter (fun r => !ModeGrid.is_chemsem r)).map
        (fun r => (ModeGrid.normal_base r, r.path)) := by
  unfold ModeGrid.normal_images
  rw [normal_fold_filter]
  exact dict_fresh_fold ModeGrid.normal_base _ [] (by simpa using h2)

/-- Helper: with unique ChemSEM base names the ChemSEM-image dictionary is
the base/path list of the ChemSEM records. -/
theorem chemsem_images_eq (pool : List ModeGrid.PRecord)
    (h3 : (((ModeGrid.valid_images pool).filter
      (fun r => ModeGrid.is_chemsem r)).map ModeGrid.chem_base).Nodup) :
    ModeGrid.chemsem_images pool =
      ((ModeGrid.valid_images pool).filter (fun r => ModeGrid.is_chemsem r)).map
        (fun r => (ModeGrid.chem_base r, r.path)) := by
  unfold ModeGrid.chemsem_images
  rw [chem_fold_filter]
  exact dict_fresh_fold ModeGrid.chem_base _ [] (by simpa using h3)

/-- Helper: looking a base name up in a mapped dictionary searches the
underlying records. -/
theorem dict_find_map (key : ModeGrid.PRecord → String) (rs : List ModeGrid.PRecord)
    (b : String) :
    ModeGrid.dict_find (rs.map (fun r => (key r, r.path))) b =
      (rs.find? (fun r => key r == b)).map (fun r => r.path) := by
  unfold ModeGrid.dict_find
  rw [List.find?_map]
  rw [Option.map_map]
  rfl

/-- Helper: the ChemSEM matching list, written over the records themselves. -/
theorem chemsem_matches_eq (pool : List ModeGrid.PRecord)
    (h2 : (((ModeGrid.valid_images pool).filter
      (fun r => !ModeGrid.is_chemsem r)).map ModeGrid.normal_base).Nodup)
    (h3 : (((ModeGrid.valid_images pool).filter
      (fun r => ModeGrid.is_chemsem r)).map ModeGrid.chem_base).Nodup) :
    ModeGrid.chemsem_matches pool =
      ((ModeGrid.valid_images pool).filter (fun r => !ModeGrid.is_chemsem r)).filterMap
        (fun rn => (((ModeGrid.valid_images pool).filter
            (fun r => ModeGrid.is_chemsem r)).find?
              (fun rc => ModeGrid.chem_base rc == ModeGrid.normal_base rn)).map
          (fun rc => (rn.path, rc.path))) := by
  unfold ModeGrid.chemsem_matches
  rw [normal_images_eq pool h2, chemsem_images_eq pool h3]
  rw [List.filterMap_map]
  congr 1
  funext rn
  simp only [Function.comp]
  rw [dict_find_map]
  rw [Option.map_map]
  rfl

/-- Helper: when at most one element satisfies the predicate, find? is
invariant under permutation. -/
theorem find?_perm_of_unique {α : Type} (q : α → Bool) {l l' : List α}
    (hp : l.Perm l')
    (huniq : ∀ x ∈ l, ∀ y ∈ l, q x = true → q y = true → x = y) :
    l.find? q = l'.find? q := by
  rcases hfind : l.find? q with _ | a
  · rw [List.find?_eq_none] at hfind
    symm
    rw [List.find?_eq_none]
    intro x hx
    exact hfind x (hp.mem_iff.mpr hx)
  · have hqa : q a = true := List.find?_some hfind
    have hmem : a ∈ l := List.mem_of_find?_eq_some hfind
    rcases hfind' : l'.find? q with _ | b
    · rw [List.find?_eq_none] at hfind'
      exact absurd hqa (hfind' a (hp.mem_iff.mp hmem))
    · have hqb : q b = true := List.find?_some hfind'
      have hmemb : b ∈ l := hp.mem_iff.mpr (List.mem_of_find?_eq_some hfind')
      rw [huniq a hmem b hmemb hqa hqb]

/-- Helper: attaching with pairwise-disjoint groups extends exactly the
groups containing the regular path. -/
theorem attach_chem_map (x : String × String) :
    ∀ (gs : List ((ℚ × ℚ) × List String)),
    gs.Pairwise (fun a b => ∀ p ∈ a.2, p ∉ b.2) →
    ModeGrid.attach_chem gs x =
      gs.map (fun g => if x.1 ∈ g.2 then (g.1, g.2 ++ [x.2]) else g) := by
  intro gs
  induction gs with
  | nil => intro _; rfl
  | cons g rest ih =>
    intro hdis
    obtain ⟨hg, hrest⟩ := List.pairwise_cons.mp hdis
    by_cases hx : x.1 ∈ g.2
    · simp only [ModeGrid.attach_chem, if_pos hx, List.map_cons]
      congr 1
      symm
      calc rest.map (fun g => if x.1 ∈ g.2 then (g.1, g.2 ++ [x.2]) else g)
          = rest.map id := by
            apply List.map_congr_left
            intro g' hg'
            rw [if_neg (hg g' hg' x.1 hx)]
            rfl
        _ = rest := List.map_id rest
    · simp only [ModeGrid.attach_chem, if_neg hx, List.map_cons]
      congr 1
      exact ih hrest

/-- Helper: folding the attachment over the match list appends to each group
exactly the ChemSEM paths matched to a regular path of that group. -/
theorem attach_fold :
    ∀ (ms : List (String × String)) (gs : List ((ℚ × ℚ) × List String)),
    gs.Pairwise (fun a b => ∀ p ∈ a.2, p ∉ b.2) →
    (∀ m ∈ ms, ∀ g ∈ gs, m.2 ∉ g.2) →
    (ms.map Prod.snd).Nodup →
    (∀ m ∈ ms, ∀ m' ∈ ms, m.1 ≠ m'.2) →
    ms.foldl ModeGrid.attach_chem gs =
      gs.map (fun g => (g.1, g.2 ++
        (ms.filter (fun m => decide (m.1 ∈ g.2))).map Prod.snd)) := by
  intro ms
  induction ms with
  | nil =>
    intro gs _ _ _ _
    simp only [List.foldl_nil, List.filter_nil, List.map_nil, List.append_nil]
    symm
    calc gs.map (fun g => (g.1, g.2)) = gs.map id := by
          apply List.map_congr_left
          intro g _
          rfl
      _ = gs := List.map_id gs
  | cons m ms' ih =>
    intro gs hdis hfresh hnodup hcross
    rw [List.map_cons] at hnodup
    have hnc := List.nodup_cons.mp hnodup
    have hnodup' : (ms'.map Prod.snd).Nodup := hnc.2
    have hm2 : m.2 ∉ ms'.map Prod.snd := hnc.1
    have hstep := attach_chem_map m gs hdis
    have hdis1 : (gs.map (fun g => if m.1 ∈ g.2 then (g.1, g.2 ++ [m.2]) else g)).Pairwise
        (fun a b => ∀ p ∈ a.2, p ∉ b.2) := by
      rw [List.pairwise_map]
      refine hdis.imp_of_mem ?_
      intro a b ha hb hab
      intro p hp hpb
      by_cases hma : m.1 ∈ a.2
      · rw [if_pos hma] at hp
        simp only at hp
        rcases List.mem_append.mp hp with hpa | hpm
        · -- p comes from a: p is not in b.2, and p is not the new chem m.2
          by_cases hmb : m.1 ∈ b.2
          · exact absurd hmb (hab m.1 hma)
          · rw [if_neg hmb] at hpb
            exact hab p hpa hpb
        · rcases List.mem_singleton.mp hpm with rfl
          by_cases hmb : m.1 ∈ b.2
          · exact absurd hmb (hab m.1 hma)
          · rw [if_neg hmb] at hpb
            exact hfresh m (List.mem_cons_self m ms') b hb hpb
      · rw [if_neg hma] at hp
        by_cases hmb : m.1 ∈ b.2
        · rw [if_pos hmb] at hpb
          simp only at hpb
          rcases List.mem_append.mp hpb with hpb' | hpm
          · exact hab p hp hpb'
          · rcases List.mem_singleton.mp hpm with rfl
            exact hfresh m (List.mem_cons_self m ms') a ha hp
        · rw [if_neg hmb] at hpb
          exact hab p hp hpb
    have hfresh1 : ∀ m' ∈ ms', ∀ g ∈ gs.map (fun g =>
        if m.1 ∈ g.2 then (g.1, g.2 ++ [m.2]) else g), m'.2 ∉ g.2 := by
      intro m' hm' g1 hg1
      obtain ⟨g, hg, rfl⟩ := List.mem_map.mp hg1
      by_cases hmg : m.1 ∈ g.2
      · rw [if_pos hmg]
        simp only []
        intro hmem
        rcases List.mem_append.mp hmem with h | h
        · exact hfresh m' (List.mem_cons_of_mem _ hm') g hg h
        · rcases List.mem_singleton.mp h with he
          apply hm2
          rw [← he]
          exact List.mem_map.mpr ⟨m', hm', rfl⟩
      · rw [if_neg hmg]
        exact hfresh m' (List.mem_cons_of_mem _ hm') g hg
    have hcross' : ∀ a ∈ ms', ∀ b ∈ ms', a.1 ≠ b.2 := fun a ha b hb =>
      hcross a (List.mem_cons_of_mem _ ha) b (List.mem_cons_of_mem _ hb)
    simp only [List.foldl_cons]
    rw [hstep]
    rw [ih _ hdis1 hfresh1 hnodup' hcross']
    rw [List.map_map]
    apply List.map_congr_left
    intro g hg
    simp only [Function.comp]
    by_cases hmg : m.1 ∈ g.2
    · simp only [if_pos hmg]
      have htest2 : ∀ x ∈ ms',
          (decide (x.1 ∈ g.2 ++ [m.2]) : Bool) = decide (x.1 ∈ g.2) := by
        intro x hx
        apply decide_eq_decide.mpr
        constructor
        · intro h
          rcases List.mem_append.mp h with h | h
          · exact h
          · rcases List.mem_singleton.mp h with he
            exact absurd he (hcross x (List.mem_cons_of_mem _ hx)
              m (List.mem_cons_self m ms'))
        · exact fun h => List.mem_append.mpr (Or.inl h)
      rw [List.filter_congr htest2]
      rw [List.filter_cons, if_pos (by simpa using hmg)]
      simp [List.append_assoc]
    · simp only [if_neg hmg]
      rw [List.filter_cons, if_neg (by simpa using hmg)]

/-- Helper: a path in a position group comes from a unique usable regular
record with that key and path. -/
theorem mem_paths_at (pool : List ModeGrid.PRecord) (k : ℚ × ℚ) (p : String) :
    p ∈ ModeGrid.paths_at pool k ↔
      ∃ r, r ∈ ModeGrid.valid_images pool ∧ ModeGrid.is_chemsem r = false ∧
        ModeGrid.pos_key r = k ∧ r.path = p := by
  unfold ModeGrid.paths_at
  simp only [List.mem_map, List.mem_filter, Bool.and_eq_true, Bool.not_eq_true',
    decide_eq_true_eq]
  constructor
  · rintro ⟨r, ⟨hr, hch, hk⟩, hp⟩
    exact ⟨r, hr, hch, hk, hp⟩
  · rintro ⟨r, hr, hch, hk, hp⟩
    exact ⟨r, ⟨hr, hch, hk⟩, hp⟩

/-- Helper: distinct usable records have distinct paths (record identifiers). -/
theorem paths_inj (pool : List ModeGrid.PRecord)
    (h1 : ((ModeGrid.valid_images pool).map ModeGrid.PRecord.path).Nodup) :
    ∀ r ∈ ModeGrid.valid_images pool, ∀ r' ∈ ModeGrid.valid_images pool,
      r.path = r'.path → r = r' := by
  intro r hr r' hr' he
  exact List.inj_on_of_nodup_map h1 hr hr' he

/-- Helper: inversion of membership in the ChemSEM match list. -/
theorem mem_chemsem_matches (pool : List ModeGrid.PRecord)
    (h2 : (((ModeGrid.valid_images pool).filter
      (fun r => !ModeGrid.is_chemsem r)).map ModeGrid.normal_base).Nodup)
    (h3 : (((ModeGrid.valid_images pool).filter
      (fun r => ModeGrid.is_chemsem r)).map ModeGrid.chem_base).Nodup)
    (mch : String × String) (hm : mch ∈ ModeGrid.chemsem_matches pool) :
    ∃ rn, rn ∈ ModeGrid.valid_images pool ∧ ModeGrid.is_chemsem rn = false ∧
    ∃ rc, rc ∈ ModeGrid.valid_images pool ∧ ModeGrid.is_chemsem rc = true ∧
      ModeGrid.chem_base rc = ModeGrid.normal_base rn ∧ mch = (rn.path, rc.path) := by
  rw [chemsem_matches_eq pool h2 h3] at hm
  obtain ⟨rn, hrn, hF⟩ := List.mem_filterMap.mp hm
  obtain ⟨hrnv, hrnch⟩ := List.mem_filter.mp hrn
  rcases hfind : ((ModeGrid.valid_images pool).filter
      (fun r => ModeGrid.is_chemsem r)).find?
        (fun rc => ModeGrid.chem_base rc == ModeGrid.normal_base rn) with _ | rc
  · rw [hfind] at hF
    cases hF
  · rw [hfind] at hF
    obtain rfl := (Option.some.inj hF).symm
    have hrcmem := List.mem_of_find?_eq_some hfind
    obtain ⟨hrcv, hrcch⟩ := List.mem_filter.mp hrcmem
    have hq := List.find?_some hfind
    refine ⟨rn, hrnv, by simpa using hrnch, rc, hrcv, by simpa using hrcch, ?_, rfl⟩
    exact beq_iff_eq.mp hq

/-- Helper: a mapped list's finset is the image of the finset. -/
theorem listToFinset_map {α β : Type} [DecidableEq α] [DecidableEq β]
    (l : List α) (f : α → β) :
    (l.map f).toFinset = l.toFinset.image f := by
  ext b
  simp [List.mem_toFinset, List.mem_map, Finset.mem_image]

/-- Helper: permutations have equal finsets. -/
theorem perm_toFinset {α : Type} [DecidableEq α] {l l' : List α} (h : l.Perm l') :
    l.toFinset = l'.toFinset := by
  ext a
  simp [List.mem_toFinset, h.mem_iff]

/-- Helper: canonical description of the cluster membership sets — the image,
over the distinct positions of usable regular records, of the position's
regular paths together with the ChemSEM paths attached to them. -/
theorem cluster_canonical (pool : List ModeGrid.PRecord)
    (h1 : ((ModeGrid.valid_images pool).map ModeGrid.PRecord.path).Nodup)
    (h2 : (((ModeGrid.valid_images pool).filter
      (fun r => !ModeGrid.is_chemsem r)).map ModeGrid.normal_base).Nodup)
    (h3 : (((ModeGrid.valid_images pool).filter
      (fun r => ModeGrid.is_chemsem r)).map ModeGrid.chem_base).Nodup) :
    ModeGrid.cluster_sets pool =
      Finset.image
        (fun k => (ModeGrid.paths_at pool k ++ ModeGrid.chems_at pool k).toFinset)
        (((ModeGrid.valid_images pool).filter
          (fun r => !ModeGrid.is_chemsem r)).map ModeGrid.pos_key).toFinset := by
  have hdis : (ModeGrid.exact_position_groups pool).Pairwise
      (fun a b => ∀ p ∈ a.2, p ∉ b.2) := by
    have hknd := epg_nodup pool
    have hne : (ModeGrid.exact_position_groups pool).Pairwise (fun a b => a.1 ≠ b.1) :=
      List.pairwise_map.mp hknd
    refine hne.imp_of_mem ?_
    intro a b ha hb hab p hpa hpb
    rw [epg_pairs pool a ha] at hpa
    rw [epg_pairs pool b hb] at hpb
    obtain ⟨r, hr, hrch, hrk, hrp⟩ := (mem_paths_at pool a.1 p).mp hpa
    obtain ⟨r', hr', hrch', hrk', hrp'⟩ := (mem_paths_at pool b.1 p).mp hpb
    have : r = r' := paths_inj pool h1 r hr r' hr' (by rw [hrp, hrp'])
    apply hab
    rw [← hrk, this, hrk']
  have hfresh : ∀ m ∈ ModeGrid.chemsem_matches pool,
      ∀ g ∈ ModeGrid.exact_position_groups pool, m.2 ∉ g.2 := by
    intro m hm g hg hmem
    obtain ⟨rn, _, _, rc, hrcv, hrcch, _, rfl⟩ := mem_chemsem_matches pool h2 h3 m hm
    rw [epg_pairs pool g hg] at hmem
    obtain ⟨r, hr, hrch, _, hrp⟩ := (mem_paths_at pool g.1 rc.path).mp hmem
    have : r = rc := paths_inj pool h1 r hr rc hrcv hrp
    rw [this] at hrch
    rw [hrcch] at hrch
    cases hrch
  have hsnd : ((ModeGrid.chemsem_matches pool).map Prod.snd).Nodup := by
    rw [chemsem_matches_eq pool h2 h3]
    show List.Pairwise _ _
    rw [List.pairwise_map, List.pairwise_filterMap]
    have hvnd : (ModeGrid.valid_images pool).Nodup := h1.of_map
    have hnnd : ((ModeGrid.valid_images pool).filter
        (fun r => !ModeGrid.is_chemsem r)).Nodup := hvnd.filter _
    refine hnnd.imp_of_mem ?_
    intro rn rn' hrn hrn' hne y hy y' hy'
    obtain ⟨hrnv, _⟩ := List.mem_filter.mp hrn
    obtain ⟨hrnv', _⟩ := List.mem_filter.mp hrn'
    rcases hfind : ((ModeGrid.valid_images pool).filter
        (fun r => ModeGrid.is_chemsem r)).find?
          (fun rc => ModeGrid.chem_base rc == ModeGrid.normal_base rn) with _ | rc
    · rw [hfind] at hy
      cases hy
    rcases hfind' : ((ModeGrid.valid_images pool).filter
        (fun r => ModeGrid.is_chemsem r)).find?
          (fun rc => ModeGrid.chem_base rc == ModeGrid.normal_base rn') with _ | rc'
    · rw [hfind'] at hy'
      cases hy'
    rw [hfind, Option.map_some'] at hy
    rw [hfind', Option.map_some'] at hy'
    obtain rfl := Option.mem_some_iff.mp hy
    obtain rfl := Option.mem_some_iff.mp hy'
    simp only []
    intro heq
    obtain ⟨hrcv, -⟩ := List.mem_filter.mp (List.mem_of_find?_eq_some hfind)
    obtain ⟨hrcv', -⟩ := List.mem_filter.mp (List.mem_of_find?_eq_some hfind')
    have hrc : rc = rc' := paths_inj pool h1 rc hrcv rc' hrcv' heq
    have hb0 := List.find?_some hfind
    have hb0' := List.find?_some hfind'
    have hb : ModeGrid.chem_base rc = ModeGrid.normal_base rn := beq_iff_eq.mp hb0
    have hb' : ModeGrid.chem_base rc' = ModeGrid.normal_base rn' := beq_iff_eq.mp hb0'
    have hbase : ModeGrid.normal_base rn = ModeGrid.normal_base rn' := by
      rw [← hb, hrc, hb']
    exact hne (List.inj_on_of_nodup_map h2 hrn hrn' hbase)
  have hcross : ∀ m ∈ ModeGrid.chemsem_matches pool,
      ∀ m' ∈ ModeGrid.chemsem_matches pool, m.1 ≠ m'.2 := by
    intro m hm m' hm' he
    obtain ⟨rn, hrnv, hrnch, rc, _, _, _, rfl⟩ := mem_chemsem_matches pool h2 h3 m hm
    obtain ⟨rn', _, _, rc', hrcv', hrcch', _, rfl⟩ := mem_chemsem_matches pool h2 h3 m' hm'
    have : rn = rc' := paths_inj pool h1 rn hrnv rc' hrcv' he
    rw [this, hrcch'] at hrnch
    cases hrnch
  unfold ModeGrid.cluster_sets ModeGrid.group_by_position
  rw [attach_fold _ _ hdis hfresh hsnd hcross]
  rw [List.map_map, List.map_map]
  have hmapeq : (ModeGrid.exact_position_groups pool).map
      ((List.toFinset ∘ fun g => g.2) ∘ fun g => (g.1, g.2 ++
        ((ModeGrid.chemsem_matches pool).filter
          (fun m => decide (m.1 ∈ g.2))).map Prod.snd)) =
      ((ModeGrid.exact_position_groups pool).map Prod.fst).map
        (fun k => (ModeGrid.paths_at pool k ++ ModeGrid.chems_at pool k).toFinset) := by
    rw [List.map_map]
    apply List.map_congr_left
    intro g hg
    simp only [Function.comp]
    rw [epg_pairs pool g hg]
    rfl
  rw [hmapeq, listToFinset_map]
  congr 1
  ext k
  simp only [List.mem_toFinset]
  exact epg_keys pool k

/-- Helper: the match list is permutation-invariant up to permutation, given
unique base names on both sides. -/
theorem chemsem_matches_perm {l l' : List ModeGrid.PRecord} (hperm : l.Perm l')
    (h2 : (((ModeGrid.valid_images l).filter
      (fun r => !ModeGrid.is_chemsem r)).map ModeGrid.normal_base).Nodup)
    (h3 : (((ModeGrid.valid_images l).filter
      (fun r => ModeGrid.is_chemsem r)).map ModeGrid.chem_base).Nodup)
    (h2' : (((ModeGrid.valid_images l').filter
      (fun r => !ModeGrid.is_chemsem r)).map ModeGrid.normal_base).Nodup)
    (h3' : (((ModeGrid.valid_images l').filter
      (fun r => ModeGrid.is_chemsem r)).map ModeGrid.chem_base).Nodup) :
    (ModeGrid.chemsem_matches l).Perm (ModeGrid.chemsem_matches l') := by
  rw [chemsem_matches_eq l h2 h3, chemsem_matches_eq l' h2' h3']
  have hv : (ModeGrid.valid_images l).Perm (ModeGrid.valid_images l') := hperm.filter _
  have hC := hv.filter (fun r => ModeGrid.is_chemsem r)
  have hN := hv.filter (fun r => !ModeGrid.is_chemsem r)
  have hfind : ∀ rn : ModeGrid.PRecord,
      ((ModeGrid.valid_images l').filter (fun r => ModeGrid.is_chemsem r)).find?
        (fun rc => ModeGrid.chem_base rc == ModeGrid.normal_base rn) =
      ((ModeGrid.valid_images l).filter (fun r => ModeGrid.is_chemsem r)).find?
        (fun rc => ModeGrid.chem_base rc == ModeGrid.normal_base rn) := by
    intro rn
    refine find?_perm_of_unique _ hC.symm ?_
    intro x hx y hy hqx hqy
    have hbx := beq_iff_eq.mp hqx
    have hby := beq_iff_eq.mp hqy
    exact List.inj_on_of_nodup_map h3' hx hy (by rw [hbx, hby])
  have hfun : (fun rn : ModeGrid.PRecord =>
      (((ModeGrid.valid_images l').filter (fun r => ModeGrid.is_chemsem r)).find?
        (fun rc => ModeGrid.chem_base rc == ModeGrid.normal_base rn)).map
          (fun rc => (rn.path, rc.path))) =
      (fun rn : ModeGrid.PRecord =>
      (((ModeGrid.valid_images l).filter (fun r => ModeGrid.is_chemsem r)).find?
        (fun rc => ModeGrid.chem_base rc == ModeGrid.normal_base rn)).map
          (fun rc => (rn.path, rc.path))) := by
    funext rn
    rw [hfind rn]
  rw [hfun]
  exact hN.filterMap _

/-- Helper: the regular paths at one position are permutation-invariant up to
permutation. -/
theorem paths_at_perm {l l' : List ModeGrid.PRecord} (hperm : l.Perm l')
    (k : ℚ × ℚ) : (ModeGrid.paths_at l k).Perm (ModeGrid.paths_at l' k) := by
  have hv : (ModeGrid.valid_images l).Perm (ModeGrid.valid_images l') := hperm.filter _
  exact (hv.filter _).map _

/-- Helper: the attached ChemSEM paths at one position are permutation-invariant
up to permutation, given unique base names. -/
theorem chems_at_perm {l l' : List ModeGrid.PRecord} (hperm : l.Perm l')
    (h2 : (((ModeGrid.valid_images l).filter
      (fun r => !ModeGrid.is_chemsem r)).map ModeGrid.normal_base).Nodup)
    (h3 : (((ModeGrid.valid_images l).filter
      (fun r => ModeGrid.is_chemsem r)).map ModeGrid.chem_base).Nodup)
    (h2' : (((ModeGrid.valid_images l').filter
      (fun r => !ModeGrid.is_chemsem r)).map ModeGrid.normal_base).Nodup)
    (h3' : (((ModeGrid.valid_images l').filter
      (fun r => ModeGrid.is_chemsem r)).map ModeGrid.chem_base).Nodup)
    (k : ℚ × ℚ) : (ModeGrid.chems_at l k).Perm (ModeGrid.chems_at l' k) := by
  unfold ModeGrid.chems_at
  have hm := chemsem_matches_perm hperm h2 h3 h2' h3'
  have hpaths := paths_at_perm hperm k
  have hcongr : (ModeGrid.chemsem_matches l').filter
      (fun mch => decide (mch.1 ∈ ModeGrid.paths_at l' k)) =
      (ModeGrid.chemsem_matches l').filter
        (fun mch => decide (mch.1 ∈ ModeGrid.paths_at l k)) := by
    apply List.filter_congr
    intro m _
    exact decide_eq_decide.mpr hpaths.mem_iff.symm
  rw [hcongr]
  exact (hm.filter _).map _

/-- C9: clustering any two permutations of the same pool of records yields the
same set of cluster membership sets, provided the usable records carry distinct
paths and no two regular records, and no two ChemSEM records, share a base
filename.  (Without the base-name provisos the claim fails: see the
counterexample, where a duplicate base filename makes the ChemSEM attachment
depend on pool order.) -/
theorem c9_cluster_perm_invariance (l l' : List ModeGrid.PRecord)
    (hperm : l.Perm l')
    (h1 : ((ModeGrid.valid_images l).map ModeGrid.PRecord.path).Nodup)
    (h2 : (((ModeGrid.valid_images l).filter
      (fun r => !ModeGrid.is_chemsem r)).map ModeGrid.normal_base).Nodup)
    (h3 : (((ModeGrid.valid_images l).filter
      (fun r => ModeGrid.is_chemsem r)).map ModeGrid.chem_base).Nodup) :
    ModeGrid.cluster_sets l = ModeGrid.cluster_sets l' := by
  have hv : (ModeGrid.valid_images l).Perm (ModeGrid.valid_images l') := hperm.filter _
  have h1' : ((ModeGrid.valid_images l').map ModeGrid.PRecord.path).Nodup :=
    ((hv.map _).nodup_iff).mp h1
  have h2' := (((hv.filter _).map _).nodup_iff).mp h2
  have h3' := (((hv.filter _).map _).nodup_iff).mp h3
  rw [cluster_canonical l h1 h2 h3, cluster_canonical l' h1' h2' h3']
  have hkeys := perm_toFinset
    ((hv.filter (fun r => !ModeGrid.is_chemsem r)).map ModeGrid.pos_key)
  rw [← hkeys]
  apply Finset.image_congr
  intro k _
  apply perm_toFinset
  exact (paths_at_perm hperm k).append (chems_at_perm hperm h2 h3 h2' h3' k)

/-- C9 witness: on a concrete three-record pool with distinct base filenames,
swapping the first two records leaves the cluster sets unchanged. -/
theorem c9_cluster_perm_invariance_witness :
    ModeGrid.cluster_sets ModeGrid.c9_pool3 = ModeGrid.cluster_sets ModeGrid.c9_pool4 :=
  c9_cluster_perm_invariance ModeGrid.c9_pool3 ModeGrid.c9_pool4
    (List.Perm.swap _ _ _) (by decide) (by decide) (by decide)
